import Mathlib

/-!
Verification development for the mongo-visualizer scanner core.

The Go sources embedded here:
* `internal/types/types.go` — data model and `GetBSONTypeName`.
* `internal/analyzer/analyzer.go` — field extraction, schema building,
  confidence scoring (`AnalyzeDocuments`, `extractFields`, `analyzeArray`,
  `buildField`, `getNestedFields`, `inferType`, `calculateSchemaConfidence`,
  `round2`).
* `internal/scanner/scanner.go` — sampling policy (`calculateSampleSize`)
  and the per-database / per-collection scan flow (`ScanDatabase`,
  `ScanCollection`), modelled with the document source as an oracle and the
  concurrent fan-out serialised (the claims treated here concern membership
  in the result, which is order-independent).

Modelling conventions:
* Go `float64` arithmetic is embedded as exact rational arithmetic (`ℚ`).
  All concrete inputs used in counterexamples keep every intermediate value
  dyadic, so the rational value coincides with the `float64` value computed
  by the Go code.
* Go maps (`map[string]*fieldStat`, `map[string]int`) are embedded as
  association lists in first-insertion order.  Go iterates maps in an
  unspecified order; every fact proved below is insensitive to that order
  (the output lists are sorted, and counters commute).
* The mutual recursion `buildField` / `getNestedFields` in the Go code does
  not terminate on all inputs (the relative-path lookup can cycle), so the
  embedding takes an explicit `fuel` parameter that is decremented at each
  `getNestedFields` call; theorems quantify over the fuel.
-/

namespace MongoVis

/- Decoded BSON-like values, one constructor per branch of the Go
`GetBSONTypeName` type switch.  `BArr` and `BDoc` are inlined list types so
that the extraction functions can recurse structurally. -/
mutual

inductive BVal where
  | null
  | str (s : String)
  | i32 (n : Int)
  | i64 (n : Int)
  | dbl (q : ℚ)
  | boolean (b : Bool)
  | objectId
  | date
  | binData
  | regex
  | decimal
  | timestamp
  | arr (items : BArr)
  | obj (d : BDoc)

inductive BArr where
  | nil
  | cons (v : BVal) (rest : BArr)

inductive BDoc where
  | nil
  | cons (key : String) (v : BVal) (rest : BDoc)

end

/-- Embedding of `types.GetBSONTypeName`: map a decoded value to its type tag. -/
def getBSONTypeName : BVal → String
  | .null => "null"
  | .str _ => "string"
  | .i32 _ => "int32"
  | .i64 _ => "int64"
  | .dbl _ => "double"
  | .boolean _ => "boolean"
  | .objectId => "objectId"
  | .date => "date"
  | .binData => "binData"
  | .regex => "regex"
  | .decimal => "decimal"
  | .timestamp => "timestamp"
  | .arr _ => "array"
  | .obj _ => "object"

/-- Number of elements of an embedded BSON array. -/
def BArr.length : BArr → Nat
  | .nil => 0
  | .cons _ rest => 1 + rest.length

/-- Number of elements of an embedded BSON array carrying type tag `t`. -/
def tagCount (t : String) : BArr → Nat
  | .nil => 0
  | .cons v rest => (if getBSONTypeName v = t then 1 else 0) + tagCount t rest

/-- Embedding of `analyzer.fieldStat`: per-path counters collected during extraction. -/
structure FieldStat where
  occurrences : Nat
  types : List (String × Nat)
  isObject : Bool
  isArray : Bool
deriving Repr, DecidableEq

def emptyStat : FieldStat := ⟨0, [], false, false⟩

/-- The `map[string]*fieldStat` of the analyzer, in first-insertion order. -/
abbrev Stats := List (String × FieldStat)

def lookupStat : Stats → String → Option FieldStat
  | [], _ => none
  | (q, g) :: rest, p => if q = p then some g else lookupStat rest p

/-- Update the entry for `p`, appending a fresh entry when absent (Go map
assignment; insertion order is the embedding's iteration order). -/
def setStat : Stats → String → FieldStat → Stats
  | [], p, f => [(p, f)]
  | (q, g) :: rest, p, f => if q = p then (p, f) :: rest else (q, g) :: setStat rest p f

def getOr (s : Stats) (p : String) : FieldStat := (lookupStat s p).getD emptyStat

/-- The update `stat.types[typeName]++` on the Go `map[string]int`. -/
def bumpType : List (String × Nat) → String → List (String × Nat)
  | [], t => [(t, 1)]
  | (u, n) :: rest, t => if u = t then (u, n + 1) :: rest else (u, n) :: bumpType rest t

/-- Count recorded for tag `t` in a `types` map. -/
def typeCount (ts : List (String × Nat)) (t : String) : Nat :=
  ((ts.lookup t).getD 0)

/-- One iteration of the field loop in `extractFields` for path `p` and tag
`t`: ensure the entry exists, bump `occurrences` and `types[t]`, and set the
`isObject` / `isArray` flags exactly when the tag says so. -/
def recordType (s : Stats) (p t : String) : Stats :=
  let st := getOr s p
  setStat s p
    { occurrences := st.occurrences + 1
      types := bumpType st.types t
      isObject := st.isObject || (t = "object")
      isArray := st.isArray || (t = "array") }

/-- One iteration of the element loop in `analyzeArray`: bump `occurrences`
and `types[t]` only (the Go code never sets the flags on the `[]` entry). -/
def recordElem (s : Stats) (p t : String) : Stats :=
  let st := getOr s p
  setStat s p
    { occurrences := st.occurrences + 1
      types := bumpType st.types t
      isObject := st.isObject
      isArray := st.isArray }

/-- The `if _, exists := stats[arrayPath]; !exists` initialisation. -/
def ensureStat (s : Stats) (p : String) : Stats :=
  match lookupStat s p with
  | some _ => s
  | none => s ++ [(p, emptyStat)]

/-- The path join `prefix + "." + key` (or just `key` at top level). -/
def mkPath (pre key : String) : String :=
  if pre = "" then key else pre ++ "." ++ key

/-- Embedding of `strings.Contains(path, ".")`. -/
def hasDot (s : String) : Bool := s.data.any (fun c => c = '.')

/-- Embedding of `strings.HasPrefix(s, p)`. -/
def strStarts (s p : String) : Bool := p.data.isPrefixOf s.data

/-- Embedding of `strings.TrimPrefix(s, p)` in the branch where the check succeeded. -/
def dropPre (s p : String) : String := String.mk (s.data.drop p.data.length)

/-- Lexicographic comparison of character lists by code point. -/
def charListLt : List Char → List Char → Bool
  | [], [] => false
  | [], _ :: _ => true
  | _ :: _, [] => false
  | a :: as, b :: bs =>
    if a.toNat < b.toNat then true
    else if b.toNat < a.toNat then false
    else charListLt as bs

/-- Go's `<` on strings: lexicographic byte comparison.  UTF-8 byte order
agrees with code-point order, so this is code-point lexicographic. -/
def strLt (a b : String) : Bool := charListLt a.data b.data

/- `analyzer.extractFields` / `analyzer.analyzeArray`: walk one document
(resp. array) and accumulate the per-path statistics.  `analyzeArrayLoop`
is the `for _, item := range arr` loop body of `analyzeArray`. -/
mutual

def extractFields (d : BDoc) (pre : String) (s : Stats) : Stats :=
  match d with
  | .nil => s
  | .cons key value rest =>
    let path := mkPath pre key
    let s1 := recordType s path (getBSONTypeName value)
    let s2 :=
      match value with
      | .obj nested => extractFields nested path s1
      | .arr items => analyzeArrayLoop items (path ++ "[]") (ensureStat s1 (path ++ "[]"))
      | _ => s1
    extractFields rest pre s2
termination_by structural d

def analyzeArrayLoop (items : BArr) (arrayPath : String) (s : Stats) : Stats :=
  match items with
  | .nil => s
  | .cons item rest =>
    let s1 := recordElem s arrayPath (getBSONTypeName item)
    let s2 :=
      match item with
      | .obj nested => extractFields nested arrayPath s1
      | _ => s1
    analyzeArrayLoop rest arrayPath s2
termination_by structural items

end

/-- Embedding of `analyzer.analyzeArray`: initialise the `[]` entry, then run the
element loop.  (`extractFields` above calls the loop with the entry
already initialised, which is this same composition unfolded one step so
that the mutual recursion stays structural.) -/
def analyzeArray (items : BArr) (path : String) (s : Stats) : Stats :=
  analyzeArrayLoop items (path ++ "[]") (ensureStat s (path ++ "[]"))

/-- Embedding of `types.TypeFrequency`. -/
structure TypeFrequency where
  type : String
  frequencyPercent : ℚ
deriving Repr, DecidableEq

/-- Embedding of `types.Field`; the field `nestedFields` uses `List Field` nested recursion. -/
structure Field where
  path : String
  types : List TypeFrequency
  inferredType : String
  presencePercent : ℚ
  nestedFields : List Field

/-- Embedding of `types.CollectionAnalysis`. -/
structure CollectionAnalysis where
  fields : List Field
  schemaConfidence : ℚ
  rareFields : List String

/-- Embedding of `analyzer.round2`, that is `float64(int(f*100+0.5)) / 100`.  For the
non-negative values this code computes, Go's truncation toward zero is the
floor, so this is round-half-up to 2 decimals. -/
def round2 (q : ℚ) : ℚ := ((⌊q * 100 + 1 / 2⌋ : ℤ) : ℚ) / 100

/-- Embedding of `analyzer.inferType`. -/
def inferType : List TypeFrequency → String
  | [] => "unknown"
  | top :: _ => if 75 < top.frequencyPercent then top.type else "mixed"

/-- Insertion into a sorted list: the building block of the embedding of
`sort.Slice` with comparator `lt`. -/
def insLess (lt : α → α → Bool) (x : α) : List α → List α
  | [] => [x]
  | y :: t => if lt x y then x :: y :: t else y :: insLess lt x t

/-- Embedding of `sort.Slice(l, lt)`.  The Go sort is unstable, but every
comparator used by the analyzer is strict on the elements that actually
occur, so any sorting algorithm yields the same relation facts. -/
def sortLess (lt : α → α → Bool) (l : List α) : List α :=
  l.foldr (insLess lt) []

/-- Comparator of the top-level field sort in `AnalyzeDocuments`:
alphabetical with `_id` forced first. -/
def idFieldLess (f g : Field) : Bool :=
  if f.path = "_id" then true
  else if g.path = "_id" then false
  else strLt f.path g.path

/-- Comparator of the nested field sort in `getNestedFields`. -/
def pathLess (f g : Field) : Bool := strLt f.path g.path

/-- Whether a field is the identity field `_id`. -/
def isIdB (f : Field) : Bool := f.path == "_id"

/-- Comparator of the type-frequency sort in `buildField` (descending). -/
def freqMore (a b : TypeFrequency) : Bool :=
  b.frequencyPercent < a.frequencyPercent

/-- Total occurrence count over a `types` map (the first loop of
`buildField`). -/
def totalOcc (ts : List (String × Nat)) : Nat :=
  ts.foldl (fun a kc => a + kc.2) 0

/-- The non-recursive core of `analyzer.buildField`: compute the sorted
type-frequency list, the inferred type and the presence percent from the
stat, and attach the given nested-field list exactly when the path was
observed with the `object` tag (`stat.isObject`). -/
def buildFieldAt (path : String) (stat : FieldStat) (totalDocs : Nat)
    (nested : List Field) : Field :=
  let t := totalOcc stat.types
  let typeFreqs := stat.types.map fun kc =>
    TypeFrequency.mk kc.1 (round2 ((kc.2 : ℚ) / (t : ℚ) * 100))
  let sortedFreqs := sortLess freqMore typeFreqs
  { path := path
    types := sortedFreqs
    inferredType := inferType sortedFreqs
    presencePercent := round2 ((stat.occurrences : ℚ) / (totalDocs : ℚ) * 100)
    nestedFields := if stat.isObject then nested else [] }

/-- Embedding of `analyzer.getNestedFields`.  Note the Go code passes the *relative*
child path (`remaining`) back into `buildField`, so the grandchild lookup
scans for keys prefixed by the relative path; the embedding reproduces
this faithfully.  `fuel` bounds the recursion depth: the Go mutual
recursion can loop forever on key sets where relative paths alias other
keys, so the embedding truncates (returns `[]`) when the fuel runs out. -/
def getNestedFields (fuel : Nat) (parentPath : String) (allStats : Stats)
    (totalDocs : Nat) : List Field :=
  match fuel with
  | 0 => []
  | fuel' + 1 =>
    let pfx := parentPath ++ "."
    let nested := allStats.filterMap fun pst =>
      if strStarts pst.1 pfx then
        let remaining := dropPre pst.1 pfx
        if hasDot remaining then none
        else some (buildFieldAt remaining pst.2 totalDocs
          (getNestedFields fuel' remaining allStats totalDocs))
      else none
    sortLess pathLess nested
termination_by structural fuel

/-- Embedding of `analyzer.buildField`: the core plus the recursive nested lookup. -/
def buildField (fuel : Nat) (path : String) (stat : FieldStat) (allStats : Stats)
    (totalDocs : Nat) : Field :=
  buildFieldAt path stat totalDocs (getNestedFields fuel path allStats totalDocs)

/-- Embedding of `analyzer.calculateSchemaConfidence`. -/
def calculateSchemaConfidence (fields : List Field) : ℚ :=
  if fields.length = 0 then 0
  else
    let total := fields.foldl
      (fun acc f =>
        match f.types with
        | [] => acc
        | top :: _ => acc + top.frequencyPercent / 100 * (f.presencePercent / 100))
      0
    round2 (total / (fields.length : ℚ) * 100)

/-- The statistics accumulated over a whole batch (the first loop of
`AnalyzeDocuments`). -/
def collectStats (docs : List BDoc) : Stats :=
  docs.foldl (fun s d => extractFields d "" s) []

/-- Embedding of `analyzer.AnalyzeDocuments`. -/
def analyzeDocuments (fuel : Nat) (docs : List BDoc) : CollectionAnalysis :=
  if docs.length = 0 then { fields := [], schemaConfidence := 0, rareFields := [] }
  else
    let totalDocs := docs.length
    let stats := collectStats docs
    let tops := stats.filter fun pst => !(hasDot pst.1)
    let fields := tops.map fun pst => buildField fuel pst.1 pst.2 stats totalDocs
    let rare := (fields.filter fun f => f.presencePercent < 5).map (·.path)
    let sorted := sortLess idFieldLess fields
    { fields := sorted
      schemaConfidence := calculateSchemaConfidence sorted
      rareFields := rare }

/-- Embedding of `scanner.calculateSampleSize`: sampling policy given the configured
`MaxDocs` cap and the estimated document count. -/
def calculateSampleSize (maxDocsOpt : Int) (docCount : Int) : Int :=
  let maxDocs := if maxDocsOpt ≤ 0 then 75000 else maxDocsOpt
  if docCount < 50000 then
    if maxDocs > docCount then docCount else maxDocs
  else if docCount < 200000 then
    if maxDocs < 50000 then maxDocs else 50000
  else
    if maxDocs < 75000 then maxDocs else 75000

/-- Embedding of `types.Collection` (the parts the scan flow constructs). -/
structure Collection where
  name : String
  documentCount : Int
  averageDocSizeBytes : Int
  indexes : List String
  fields : List Field

/-- Embedding of `types.Database`. -/
structure Database where
  name : String
  sizeBytes : Int
  collections : List Collection

/-- Oracle outcomes of the document-source calls made for one collection:
`none` models the Go call returning an error. -/
structure CollSourceData where
  estimatedCount : Option Int
  indexNames : Option (List String)
  sampleDocs : Option (List BDoc)

/-- Oracle outcomes of the document-source calls made for one database. -/
structure DBSourceData where
  sizeBytes : Int
  collectionNames : Option (List String)
  colls : String → CollSourceData

/-- Embedding of `scanner.ScanCollection`, with the driver calls replaced by the oracle
and `bson.Marshal` document sizes supplied by `docSize`.  A count failure
degrades to 0, an index failure degrades to `[]`, and a sampling failure
aborts the collection (returns `none`, the Go error return). -/
def scanCollection (fuel : Nat) (maxDocs : Int) (docSize : BDoc → Int)
    (collName : String) (d : CollSourceData) : Option Collection :=
  let docCount := d.estimatedCount.getD 0
  let _sampleSize := calculateSampleSize maxDocs docCount
  let indexes := d.indexNames.getD []
  match d.sampleDocs with
  | none => none
  | some docs =>
    let analysis := analyzeDocuments fuel docs
    some
      { name := collName
        documentCount := docCount
        averageDocSizeBytes :=
          if docs.length = 0 then 0
          else (docs.foldl (fun a doc => a + docSize doc) 0) / (docs.length : Int)
        indexes := indexes
        fields := analysis.fields }

/-- Embedding of `scanner.ScanDatabase`: list the collections (an error here fails the
database), skip names starting with an underscore, scan the rest, and keep
only the collections whose scan succeeded.  The Go code appends from
concurrent workers in completion order under a mutex; the embedding keeps
the listing order, which is sound for the membership facts proved below. -/
def scanDatabase (fuel : Nat) (maxDocs : Int) (docSize : BDoc → Int)
    (dbName : String) (src : DBSourceData) : Option Database :=
  match src.collectionNames with
  | none => none
  | some names =>
    let included := names.filter fun n => !(strStarts n "_")
    some
      { name := dbName
        sizeBytes := src.sizeBytes
        collections :=
          included.filterMap fun n => scanCollection fuel maxDocs docSize n (src.colls n) }

/-- The key list of a statistics map. -/
def statKeys (s : Stats) : List String := s.map Prod.fst

/-- The per-field contribution inside `calculateSchemaConfidence`:
dominant-type frequency and presence, both as fractions of 1. -/
def contribOf (f : Field) : ℚ :=
  match f.types with
  | [] => 0
  | top :: _ => top.frequencyPercent / 100 * (f.presencePercent / 100)

/-- The sampling tier target: the staircase level before applying the cap. -/
def tierTarget (docCount : Int) : Int :=
  if docCount < 50000 then docCount
  else if docCount < 200000 then 50000
  else 75000

/-- Sum of the frequency percents of a field's type entries. -/
def freqSum (f : Field) : ℚ := (f.types.map (·.frequencyPercent)).sum

/-! Concrete inputs used by counterexamples and witnesses. -/

/-- A small statistic: 9 int32 and 1 string occurrence, present once. -/
def wStat : FieldStat := ⟨1, [("int32", 9), ("string", 1)], false, false⟩

/-- One document `{a: {b: {c: 1}}}`: a two-level nested path. -/
def c1doc : BDoc :=
  .cons "a" (.obj (.cons "b" (.obj (.cons "c" (.i32 1) .nil)) .nil)) .nil

/-- One document `{tags: [1, 2]}`: an array with two elements. -/
def c2doc : BDoc := .cons "tags" (.arr (.cons (.i32 1) (.cons (.i32 2) .nil))) .nil

/-- A single-field document `{a: v}`. -/
def aDoc (v : BVal) : BDoc := .cons "a" v .nil

/-- Thirty-two documents whose field `a` carries 6 distinct types with counts
1 (string), 1 (int32), 1 (int64), 1 (double), 3 (boolean), 25 (null).
Every frequency is a dyadic rational, so the embedded arithmetic agrees
exactly with the Go `float64` arithmetic on this input. -/
def c5docs : List BDoc :=
  [aDoc (.str "x"), aDoc (.i32 1), aDoc (.i64 2), aDoc (.dbl 1)] ++
    List.replicate 3 (aDoc (.boolean true)) ++ List.replicate 25 (aDoc .null)

/-- The statistic that `collectStats c5docs` records for path `a`. -/
def c5stat : FieldStat :=
  ⟨32, [("string", 1), ("int32", 1), ("int64", 1), ("double", 1), ("boolean", 3),
    ("null", 25)], false, false⟩

/-- Oracle for the C9 scenario: two healthy collections and one whose
document sampling fails. -/
def c9src : DBSourceData :=
  { sizeBytes := 42
    collectionNames := some ["alpha", "broken", "zeta"]
    colls := fun n =>
      if n = "broken" then
        { estimatedCount := some 10, indexNames := some ["_id_"], sampleDocs := none }
      else
        { estimatedCount := some 1, indexNames := some ["_id_"],
          sampleDocs := some [.cons "x" (.i32 1) .nil] } }

/-! ### Lemmas about the embedded string comparison -/

theorem charEq_of_toNat_eq {a b : Char} (h : a.toNat = b.toNat) : a = b :=
  Char.eq_of_val_eq (UInt32.eq_of_toBitVec_eq (BitVec.eq_of_toNat_eq h))

theorem charListLt_trans :
    ∀ as bs cs : List Char, charListLt as bs = true → charListLt bs cs = true →
      charListLt as cs = true := by
  intro as
  induction as with
  | nil =>
    intro bs cs hab hbc
    cases bs with
    | nil => simp [charListLt] at hab
    | cons b bs' =>
      cases cs with
      | nil => simp [charListLt] at hbc
      | cons c cs' => simp [charListLt]
  | cons a as' ih =>
    intro bs cs hab hbc
    cases bs with
    | nil => simp [charListLt] at hab
    | cons b bs' =>
      cases cs with
      | nil => simp [charListLt] at hbc
      | cons c cs' =>
        simp only [charListLt] at hab hbc ⊢
        rcases Nat.lt_trichotomy a.toNat b.toNat with h1 | h1 | h1
        · rcases Nat.lt_trichotomy b.toNat c.toNat with h2 | h2 | h2
          · rw [if_pos (h1.trans h2)]
          · rw [if_pos (show a.toNat < c.toNat by omega)]
          · rw [if_neg (by omega), if_pos h2] at hbc
            simp at hbc
        · rw [if_neg (by omega : ¬ a.toNat < b.toNat),
            if_neg (by omega : ¬ b.toNat < a.toNat)] at hab
          rcases Nat.lt_trichotomy b.toNat c.toNat with h2 | h2 | h2
          · rw [if_pos (show a.toNat < c.toNat by omega)]
          · rw [if_neg (by omega : ¬ b.toNat < c.toNat),
              if_neg (by omega : ¬ c.toNat < b.toNat)] at hbc
            rw [if_neg (by omega : ¬ a.toNat < c.toNat),
              if_neg (by omega : ¬ c.toNat < a.toNat)]
            exact ih bs' cs' hab hbc
          · rw [if_neg (by omega), if_pos h2] at hbc
            simp at hbc
        · rw [if_neg (by omega), if_pos h1] at hab
          simp at hab

theorem charListLt_asymm :
    ∀ as bs : List Char, charListLt as bs = true → charListLt bs as = true → False := by
  intro as
  induction as with
  | nil =>
    intro bs hab hba
    cases bs with
    | nil => simp [charListLt] at hab
    | cons b bs' => simp [charListLt] at hba
  | cons a as' ih =>
    intro bs hab hba
    cases bs with
    | nil => simp [charListLt] at hab
    | cons b bs' =>
      simp only [charListLt] at hab hba
      rcases Nat.lt_trichotomy a.toNat b.toNat with h1 | h1 | h1
      · rw [if_neg (by omega), if_pos h1] at hba
        simp at hba
      · rw [if_neg (by omega : ¬ a.toNat < b.toNat),
          if_neg (by omega : ¬ b.toNat < a.toNat)] at hab
        rw [if_neg (by omega : ¬ b.toNat < a.toNat),
          if_neg (by omega : ¬ a.toNat < b.toNat)] at hba
        exact ih bs' hab hba
      · rw [if_neg (by omega), if_pos h1] at hab
        simp at hab

theorem charListLt_total :
    ∀ as bs : List Char, charListLt as bs = false → charListLt bs as = false → as = bs := by
  intro as
  induction as with
  | nil =>
    intro bs hab _
    cases bs with
    | nil => rfl
    | cons b bs' => simp [charListLt] at hab
  | cons a as' ih =>
    intro bs hab hba
    cases bs with
    | nil => simp [charListLt] at hba
    | cons b bs' =>
      simp only [charListLt] at hab hba
      rcases Nat.lt_trichotomy a.toNat b.toNat with h1 | h1 | h1
      · rw [if_pos h1] at hab
        simp at hab
      · rw [if_neg (by omega : ¬ a.toNat < b.toNat),
          if_neg (by omega : ¬ b.toNat < a.toNat)] at hab
        rw [if_neg (by omega : ¬ b.toNat < a.toNat),
          if_neg (by omega : ¬ a.toNat < b.toNat)] at hba
        rw [charEq_of_toNat_eq h1, ih bs' hab hba]
      · rw [if_pos h1] at hba
        simp at hba

theorem strLt_trans {a b c : String} (hab : strLt a b = true) (hbc : strLt b c = true) :
    strLt a c = true :=
  charListLt_trans a.data b.data c.data hab hbc

theorem strLt_asymm {a b : String} (hab : strLt a b = true) (hba : strLt b a = true) :
    False :=
  charListLt_asymm a.data b.data hab hba

theorem strLt_total {a b : String} (hab : strLt a b = false) (hba : strLt b a = false) :
    a = b := by
  have h := charListLt_total a.data b.data hab hba
  cases a
  cases b
  exact congrArg String.mk h

/-! ### Lemmas about the sort embedding -/

theorem sortLess_cons (lt : α → α → Bool) (x : α) (l : List α) :
    sortLess lt (x :: l) = insLess lt x (sortLess lt l) := rfl

theorem perm_insLess (lt : α → α → Bool) (x : α) :
    ∀ l : List α, List.Perm (insLess lt x l) (x :: l) := by
  intro l
  induction l with
  | nil => simp [insLess]
  | cons y t ih =>
    by_cases h : lt x y = true
    · simp [insLess, h]
    · simp only [insLess, h, Bool.false_eq_true, if_false]
      exact (ih.cons y).trans (List.Perm.swap x y t)

theorem perm_sortLess (lt : α → α → Bool) :
    ∀ l : List α, List.Perm (sortLess lt l) l := by
  intro l
  induction l with
  | nil => simp [sortLess]
  | cons x t ih =>
    rw [sortLess_cons]
    exact (perm_insLess lt x (sortLess lt t)).trans (ih.cons x)

theorem mem_insLess {lt : α → α → Bool} {x a : α} {l : List α} :
    a ∈ insLess lt x l ↔ a = x ∨ a ∈ l := by
  constructor
  · intro h
    have := (perm_insLess lt x l).mem_iff.mp h
    simpa using this
  · intro h
    refine (perm_insLess lt x l).mem_iff.mpr ?_
    simpa using h

theorem mem_sortLess {lt : α → α → Bool} {a : α} {l : List α} :
    a ∈ sortLess lt l ↔ a ∈ l :=
  (perm_sortLess lt l).mem_iff

theorem pairwise_insLess {lt : α → α → Bool}
    (htr : ∀ a b c, lt a b = true → lt b c = true → lt a c = true)
    (has : ∀ a b, lt a b = true → lt b a = true → False)
    {x : α} {l : List α} (hl : l.Pairwise fun a b => lt b a = false) :
    (insLess lt x l).Pairwise fun a b => lt b a = false := by
  induction l with
  | nil => simp [insLess]
  | cons y t ih =>
    rw [List.pairwise_cons] at hl
    obtain ⟨hy, ht⟩ := hl
    by_cases h : lt x y = true
    · simp only [insLess, h, if_true]
      refine List.Pairwise.cons ?_ (List.Pairwise.cons hy ht)
      intro z hz
      rcases List.mem_cons.mp hz with rfl | hz'
      · cases hh : lt z x with
        | false => rfl
        | true => exact absurd (has x z h hh) not_false
      · cases hh : lt z x with
        | false => rfl
        | true =>
          have hzy : lt z y = true := htr z x y hh h
          rw [hy z hz'] at hzy
          exact absurd hzy (by simp)
    · simp only [insLess, h, Bool.false_eq_true, if_false]
      refine List.Pairwise.cons ?_ (ih ht)
      intro z hz
      rcases mem_insLess.mp hz with rfl | hz'
      · cases hh : lt z y with
        | false => rfl
        | true => exact absurd hh h
      · exact hy z hz'

theorem pairwise_sortLess {lt : α → α → Bool}
    (htr : ∀ a b c, lt a b = true → lt b c = true → lt a c = true)
    (has : ∀ a b, lt a b = true → lt b a = true → False)
    (l : List α) :
    (sortLess lt l).Pairwise fun a b => lt b a = false := by
  induction l with
  | nil => simp [sortLess]
  | cons x t ih =>
    rw [sortLess_cons]
    exact pairwise_insLess htr has ih

theorem idFieldLess_trans :
    ∀ f g h : Field, idFieldLess f g = true → idFieldLess g h = true →
      idFieldLess f h = true := by
  intro f g h hfg hgh
  unfold idFieldLess at *
  by_cases h1 : f.path = "_id"
  · rw [if_pos h1]
  · rw [if_neg h1] at hfg ⊢
    by_cases h2 : g.path = "_id"
    · rw [if_pos h2] at hfg
      exact absurd hfg (by simp)
    · rw [if_neg h2] at hfg hgh
      by_cases h3 : h.path = "_id"
      · rw [if_pos h3] at hgh
        exact absurd hgh (by simp)
      · rw [if_neg h3] at hgh ⊢
        exact strLt_trans hfg hgh

theorem idFieldLess_both {f g : Field} (h1 : idFieldLess f g = true)
    (h2 : idFieldLess g f = true) : f.path = "_id" ∧ g.path = "_id" := by
  unfold idFieldLess at h1 h2
  by_cases hf : f.path = "_id"
  · refine ⟨hf, ?_⟩
    by_cases hg : g.path = "_id"
    · exact hg
    · rw [if_neg hg, if_pos hf] at h2
      exact absurd h2 (by simp)
  · rw [if_neg hf] at h1
    by_cases hg : g.path = "_id"
    · rw [if_pos hg] at h1
      exact absurd h1 (by simp)
    · rw [if_neg hg] at h1 h2
      rw [if_neg hf] at h2
      exact absurd (strLt_asymm h1 h2) not_false

theorem pairwise_insLess_id {x : Field} {l : List Field}
    (hl : l.Pairwise fun a b => idFieldLess b a = false)
    (hcnt : (x :: l).countP isIdB ≤ 1) :
    (insLess idFieldLess x l).Pairwise fun a b => idFieldLess b a = false := by
  induction l with
  | nil => simp [insLess]
  | cons y t ih =>
    rw [List.pairwise_cons] at hl
    obtain ⟨hy, ht⟩ := hl
    by_cases h : idFieldLess x y = true
    · simp only [insLess, h, if_true]
      refine List.Pairwise.cons ?_ (List.Pairwise.cons hy ht)
      intro z hz
      rcases List.mem_cons.mp hz with rfl | hz'
      · cases hh : idFieldLess z x with
        | false => rfl
        | true =>
          obtain ⟨hxid, hzid⟩ := idFieldLess_both h hh
          have hx : isIdB x = true := by simp [isIdB, hxid]
          have hz : isIdB z = true := by simp [isIdB, hzid]
          simp only [List.countP_cons, hx, hz, if_true] at hcnt
          omega
      · cases hh : idFieldLess z x with
        | false => rfl
        | true =>
          have hzy : idFieldLess z y = true := idFieldLess_trans z x y hh h
          rw [hy z hz'] at hzy
          exact absurd hzy (by simp)
    · simp only [insLess, h, Bool.false_eq_true, if_false]
      have hcnt' : (x :: t).countP isIdB ≤ 1 := by
        simp only [List.countP_cons] at hcnt ⊢
        omega
      refine List.Pairwise.cons ?_ (ih ht hcnt')
      intro z hz
      rcases mem_insLess.mp hz with rfl | hz'
      · cases hh : idFieldLess z y with
        | false => rfl
        | true => exact absurd hh h
      · exact hy z hz'

theorem pairwise_sortLess_id {l : List Field} (hcnt : l.countP isIdB ≤ 1) :
    (sortLess idFieldLess l).Pairwise fun a b => idFieldLess b a = false := by
  induction l with
  | nil => simp [sortLess]
  | cons x t ih =>
    rw [sortLess_cons]
    have hct : t.countP isIdB ≤ 1 := by
      simp only [List.countP_cons] at hcnt
      omega
    refine pairwise_insLess_id (ih hct) ?_
    have := (perm_sortLess idFieldLess t).countP_eq isIdB
    simp only [List.countP_cons] at hcnt ⊢
    omega

/-! ### Lemmas about round2 -/

theorem round2_nonneg {q : ℚ} (h : 0 ≤ q) : 0 ≤ round2 q := by
  unfold round2
  have h1 : (0 : ℤ) ≤ ⌊q * 100 + 1 / 2⌋ := by
    apply Int.le_floor.mpr
    push_cast
    linarith
  have h2 : (0 : ℚ) ≤ ((⌊q * 100 + 1 / 2⌋ : ℤ) : ℚ) := by exact_mod_cast h1
  linarith

theorem round2_le_100 {q : ℚ} (h : q ≤ 100) : round2 q ≤ 100 := by
  unfold round2
  have h0 : q * 100 + 1 / 2 ≤ (10000 : ℚ) + 1 / 2 := by linarith
  have h1 : ⌊q * 100 + 1 / 2⌋ ≤ ⌊(10000 : ℚ) + 1 / 2⌋ := Int.floor_le_floor h0
  have h2 : ⌊(10000 : ℚ) + 1 / 2⌋ = 10000 := by
    rw [Int.floor_eq_iff]
    constructor
    · norm_num
    · norm_num
  rw [h2] at h1
  have h3 : ((⌊q * 100 + 1 / 2⌋ : ℤ) : ℚ) ≤ 10000 := by exact_mod_cast h1
  linarith

theorem abs_round2_sub_le (q : ℚ) : |round2 q - q| ≤ 1 / 200 := by
  unfold round2
  have h1 : ((⌊q * 100 + 1 / 2⌋ : ℤ) : ℚ) ≤ q * 100 + 1 / 2 := Int.floor_le _
  have h2 : q * 100 + 1 / 2 - 1 < ((⌊q * 100 + 1 / 2⌋ : ℤ) : ℚ) := Int.sub_one_lt_floor _
  rw [abs_le]
  constructor
  · linarith
  · linarith

theorem abs_sum_round2_sub_le :
    ∀ l : List ℚ, |(l.map round2).sum - l.sum| ≤ (l.length : ℚ) * (1 / 200) := by
  intro l
  induction l with
  | nil => simp
  | cons x t ih =>
    simp only [List.map_cons, List.sum_cons, List.length_cons]
    have h1 := abs_round2_sub_le x
    have h2 : |round2 x + (t.map round2).sum - (x + t.sum)|
        ≤ |round2 x - x| + |(t.map round2).sum - t.sum| := by
      have := abs_add (round2 x - x) ((t.map round2).sum - t.sum)
      calc |round2 x + (t.map round2).sum - (x + t.sum)|
          = |(round2 x - x) + ((t.map round2).sum - t.sum)| := by ring_nf
        _ ≤ _ := this
    have h3 : ((t.length + 1 : ℕ) : ℚ) = (t.length : ℚ) + 1 := by push_cast; ring
    rw [h3]
    calc |round2 x + (t.map round2).sum - (x + t.sum)|
        ≤ |round2 x - x| + |(t.map round2).sum - t.sum| := h2
      _ ≤ 1 / 200 + (t.length : ℚ) * (1 / 200) := add_le_add h1 ih
      _ = ((t.length : ℚ) + 1) * (1 / 200) := by ring

/-! ### Lemmas about the statistics map -/

theorem statKeys_cons (q : String) (g : FieldStat) (rest : Stats) :
    statKeys ((q, g) :: rest) = q :: statKeys rest := rfl

theorem lookupStat_eq_none_iff :
    ∀ {s : Stats} {p : String}, lookupStat s p = none ↔ p ∉ statKeys s := by
  intro s p
  induction s with
  | nil => simp [lookupStat, statKeys]
  | cons e rest ih =>
    obtain ⟨q, g⟩ := e
    rw [statKeys_cons, List.mem_cons]
    by_cases h : q = p
    · subst h
      simp [lookupStat]
    · simp only [lookupStat, if_neg h]
      rw [ih]
      constructor
      · intro hl
        rintro (rfl | hmem)
        · exact h rfl
        · exact hl hmem
      · intro hl hmem
        exact hl (Or.inr hmem)

theorem statKeys_setStat (p : String) (f : FieldStat) :
    ∀ s : Stats, statKeys (setStat s p f) =
      if lookupStat s p = none then statKeys s ++ [p] else statKeys s := by
  intro s
  induction s with
  | nil => simp [setStat, statKeys, lookupStat]
  | cons e rest ih =>
    obtain ⟨q, g⟩ := e
    by_cases h : q = p
    · subst h
      simp [setStat, statKeys, lookupStat]
    · simp only [setStat, if_neg h, lookupStat, statKeys, List.map_cons]
      rw [show statKeys (setStat rest p f) = List.map Prod.fst (setStat rest p f) from rfl] at ih
      by_cases h2 : lookupStat rest p = none
      · rw [if_pos h2] at ih
        rw [if_pos h2, ih]
        simp [statKeys]
      · rw [if_neg h2] at ih
        rw [if_neg h2, ih]
        simp [statKeys]

theorem nodup_append_singleton {l : List String} {p : String}
    (h : l.Nodup) (hp : p ∉ l) : (l ++ [p]).Nodup := by
  rw [List.nodup_append]
  refine ⟨h, List.nodup_singleton p, ?_⟩
  intro a ha hap
  rw [List.mem_singleton] at hap
  subst hap
  exact hp ha

theorem nodup_statKeys_setStat {s : Stats} {p : String} {f : FieldStat}
    (h : (statKeys s).Nodup) : (statKeys (setStat s p f)).Nodup := by
  rw [statKeys_setStat]
  by_cases h2 : lookupStat s p = none
  · rw [if_pos h2]
    exact nodup_append_singleton h (lookupStat_eq_none_iff.mp h2)
  · rw [if_neg h2]
    exact h

theorem nodup_statKeys_recordType {s : Stats} {p t : String}
    (h : (statKeys s).Nodup) : (statKeys (recordType s p t)).Nodup :=
  nodup_statKeys_setStat h

theorem nodup_statKeys_recordElem {s : Stats} {p t : String}
    (h : (statKeys s).Nodup) : (statKeys (recordElem s p t)).Nodup :=
  nodup_statKeys_setStat h

theorem nodup_statKeys_ensureStat {s : Stats} {p : String}
    (h : (statKeys s).Nodup) : (statKeys (ensureStat s p)).Nodup := by
  unfold ensureStat
  cases h2 : lookupStat s p with
  | some g => exact h
  | none =>
    have : statKeys (s ++ [(p, emptyStat)]) = statKeys s ++ [p] := by
      simp [statKeys]
    rw [this]
    exact nodup_append_singleton h (lookupStat_eq_none_iff.mp h2)

mutual

theorem nodup_statKeys_extractFields (d : BDoc) (pre : String) (s : Stats)
    (h : (statKeys s).Nodup) : (statKeys (extractFields d pre s)).Nodup := by
  match d with
  | .nil => exact h
  | .cons key value rest =>
    cases value with
    | obj nested =>
      exact nodup_statKeys_extractFields rest pre _
        (nodup_statKeys_extractFields nested (mkPath pre key) _
          (nodup_statKeys_recordType h))
    | arr items =>
      exact nodup_statKeys_extractFields rest pre _
        (nodup_statKeys_analyzeArrayLoop items (mkPath pre key ++ "[]") _
          (nodup_statKeys_ensureStat (nodup_statKeys_recordType h)))
    | null => exact nodup_statKeys_extractFields rest pre _ (nodup_statKeys_recordType h)
    | str v => exact nodup_statKeys_extractFields rest pre _ (nodup_statKeys_recordType h)
    | i32 v => exact nodup_statKeys_extractFields rest pre _ (nodup_statKeys_recordType h)
    | i64 v => exact nodup_statKeys_extractFields rest pre _ (nodup_statKeys_recordType h)
    | dbl v => exact nodup_statKeys_extractFields rest pre _ (nodup_statKeys_recordType h)
    | boolean v => exact nodup_statKeys_extractFields rest pre _ (nodup_statKeys_recordType h)
    | objectId => exact nodup_statKeys_extractFields rest pre _ (nodup_statKeys_recordType h)
    | date => exact nodup_statKeys_extractFields rest pre _ (nodup_statKeys_recordType h)
    | binData => exact nodup_statKeys_extractFields rest pre _ (nodup_statKeys_recordType h)
    | regex => exact nodup_statKeys_extractFields rest pre _ (nodup_statKeys_recordType h)
    | decimal => exact nodup_statKeys_extractFields rest pre _ (nodup_statKeys_recordType h)
    | timestamp => exact nodup_statKeys_extractFields rest pre _ (nodup_statKeys_recordType h)
termination_by structural d

theorem nodup_statKeys_analyzeArrayLoop (items : BArr) (arrayPath : String) (s : Stats)
    (h : (statKeys s).Nodup) : (statKeys (analyzeArrayLoop items arrayPath s)).Nodup := by
  match items with
  | .nil => exact h
  | .cons item rest =>
    cases item with
    | obj nested =>
      exact nodup_statKeys_analyzeArrayLoop rest arrayPath _
        (nodup_statKeys_extractFields nested arrayPath _ (nodup_statKeys_recordElem h))
    | arr xs => exact nodup_statKeys_analyzeArrayLoop rest arrayPath _ (nodup_statKeys_recordElem h)
    | null => exact nodup_statKeys_analyzeArrayLoop rest arrayPath _ (nodup_statKeys_recordElem h)
    | str v => exact nodup_statKeys_analyzeArrayLoop rest arrayPath _ (nodup_statKeys_recordElem h)
    | i32 v => exact nodup_statKeys_analyzeArrayLoop rest arrayPath _ (nodup_statKeys_recordElem h)
    | i64 v => exact nodup_statKeys_analyzeArrayLoop rest arrayPath _ (nodup_statKeys_recordElem h)
    | dbl v => exact nodup_statKeys_analyzeArrayLoop rest arrayPath _ (nodup_statKeys_recordElem h)
    | boolean v => exact nodup_statKeys_analyzeArrayLoop rest arrayPath _ (nodup_statKeys_recordElem h)
    | objectId => exact nodup_statKeys_analyzeArrayLoop rest arrayPath _ (nodup_statKeys_recordElem h)
    | date => exact nodup_statKeys_analyzeArrayLoop rest arrayPath _ (nodup_statKeys_recordElem h)
    | binData => exact nodup_statKeys_analyzeArrayLoop rest arrayPath _ (nodup_statKeys_recordElem h)
    | regex => exact nodup_statKeys_analyzeArrayLoop rest arrayPath _ (nodup_statKeys_recordElem h)
    | decimal => exact nodup_statKeys_analyzeArrayLoop rest arrayPath _ (nodup_statKeys_recordElem h)
    | timestamp => exact nodup_statKeys_analyzeArrayLoop rest arrayPath _ (nodup_statKeys_recordElem h)
termination_by structural items

end

theorem nodup_statKeys_collectStats (docs : List BDoc) :
    (statKeys (collectStats docs)).Nodup := by
  suffices h : ∀ s : Stats, (statKeys s).Nodup →
      (statKeys (docs.foldl (fun s d => extractFields d "" s) s)).Nodup by
    exact h [] (by simp [statKeys])
  induction docs with
  | nil => intro s hs; simpa [collectStats] using hs
  | cons d rest ih =>
    intro s hs
    exact ih _ (nodup_statKeys_extractFields d "" s hs)

/-! ### Unfolding lemmas for buildField -/

theorem buildField_types (fuel : Nat) (p : String) (st : FieldStat) (allStats : Stats)
    (td : Nat) :
    (buildField fuel p st allStats td).types = sortLess freqMore
      (st.types.map fun kc =>
        TypeFrequency.mk kc.1 (round2 ((kc.2 : ℚ) / (totalOcc st.types : ℚ) * 100))) := rfl

theorem buildField_inferred (fuel : Nat) (p : String) (st : FieldStat) (allStats : Stats)
    (td : Nat) :
    (buildField fuel p st allStats td).inferredType =
      inferType (buildField fuel p st allStats td).types := rfl

theorem buildField_presence (fuel : Nat) (p : String) (st : FieldStat) (allStats : Stats)
    (td : Nat) :
    (buildField fuel p st allStats td).presencePercent =
      round2 ((st.occurrences : ℚ) / (td : ℚ) * 100) := rfl

theorem buildField_path (fuel : Nat) (p : String) (st : FieldStat) (allStats : Stats)
    (td : Nat) : (buildField fuel p st allStats td).path = p := rfl

theorem buildField_nested (fuel : Nat) (p : String) (st : FieldStat) (allStats : Stats)
    (td : Nat) :
    (buildField fuel p st allStats td).nestedFields =
      if st.isObject then getNestedFields fuel p allStats td else [] := rfl

theorem freqMore_trans :
    ∀ a b c : TypeFrequency, freqMore a b = true → freqMore b c = true →
      freqMore a c = true := by
  intro a b c h1 h2
  simp only [freqMore, decide_eq_true_eq] at *
  exact h2.trans h1

theorem freqMore_asymm :
    ∀ a b : TypeFrequency, freqMore a b = true → freqMore b a = true → False := by
  intro a b h1 h2
  simp only [freqMore, decide_eq_true_eq] at *
  exact lt_asymm h1 h2

theorem pathLess_trans :
    ∀ a b c : Field, pathLess a b = true → pathLess b c = true → pathLess a c = true := by
  intro a b c h1 h2
  exact strLt_trans h1 h2

theorem pathLess_asymm :
    ∀ a b : Field, pathLess a b = true → pathLess b a = true → False := by
  intro a b h1 h2
  exact strLt_asymm h1 h2

/-! ### Claim theorems -/

/-- C3: for every estimated document count and every positive configured
cap, the sampling planner returns `min(tier target, cap)` where the tier
target is the count below 50000, then 50000 below 200000, then 75000. -/
theorem c3_sample_size_is_min_tier_cap (docCount cap : Int) (hcap : 0 < cap) :
    calculateSampleSize cap docCount = min (tierTarget docCount) cap := by
  simp only [calculateSampleSize, tierTarget]
  split_ifs <;> omega

/-- Witness for C3 at the four boundary counts named by the claim, with the
default cap 75000. -/
theorem c3_sample_size_is_min_tier_cap_witness :
    (0 : Int) < 75000 ∧
      calculateSampleSize 75000 49999 = min (tierTarget 49999) 75000 ∧
      calculateSampleSize 75000 50000 = min (tierTarget 50000) 75000 ∧
      calculateSampleSize 75000 199999 = min (tierTarget 199999) 75000 ∧
      calculateSampleSize 75000 200000 = min (tierTarget 200000) 75000 :=
  ⟨by norm_num,
    c3_sample_size_is_min_tier_cap 49999 75000 (by norm_num),
    c3_sample_size_is_min_tier_cap 50000 75000 (by norm_num),
    c3_sample_size_is_min_tier_cap 199999 75000 (by norm_num),
    c3_sample_size_is_min_tier_cap 200000 75000 (by norm_num)⟩

/-- C10: when the configured cap is zero or negative the planner behaves
exactly as with the default cap 75000: the count itself below 50000, 50000
in `[50000, 200000)`, and 75000 from 200000 on. -/
theorem c10_nonpositive_cap_uses_default (docCount cap : Int) (hcap : cap ≤ 0) :
    calculateSampleSize cap docCount = calculateSampleSize 75000 docCount ∧
      calculateSampleSize cap docCount =
        (if docCount < 50000 then docCount
          else if docCount < 200000 then 50000 else 75000) := by
  simp only [calculateSampleSize]
  split_ifs <;> omega

/-- Witness for C10 at cap `-3` and count `123456`. -/
theorem c10_nonpositive_cap_uses_default_witness :
    (-3 : Int) ≤ 0 ∧
      (calculateSampleSize (-3) 123456 = calculateSampleSize 75000 123456 ∧
        calculateSampleSize (-3) 123456 =
          (if (123456 : Int) < 50000 then (123456 : Int)
            else if (123456 : Int) < 200000 then 50000 else 75000)) :=
  ⟨by norm_num, c10_nonpositive_cap_uses_default 123456 (-3) (by norm_num)⟩

/-- C4: for every field with at least one observed type, the inferred type
is the highest-frequency tag when its (rounded) frequency percent is
strictly above 75, and the literal `"mixed"` otherwise — in particular at
exactly 75 the result is `"mixed"`. -/
theorem c4_inferred_type_dominant_or_mixed (fuel : Nat) (p : String) (st : FieldStat)
    (allStats : Stats) (td : Nat) (h : st.types ≠ []) :
    ∃ top rest, (buildField fuel p st allStats td).types = top :: rest ∧
      (∀ tf ∈ (buildField fuel p st allStats td).types,
        tf.frequencyPercent ≤ top.frequencyPercent) ∧
      (buildField fuel p st allStats td).inferredType =
        (if 75 < top.frequencyPercent then top.type else "mixed") := by
  have hlen : (buildField fuel p st allStats td).types.length = st.types.length := by
    rw [buildField_types]
    rw [(perm_sortLess freqMore _).length_eq]
    simp
  cases h2 : (buildField fuel p st allStats td).types with
  | nil =>
    exfalso
    rw [h2] at hlen
    exact h (List.length_eq_zero.mp hlen.symm)
  | cons top rest =>
    refine ⟨top, rest, rfl, ?_, ?_⟩
    · have hp := pairwise_sortLess freqMore_trans freqMore_asymm
        (st.types.map fun kc =>
          TypeFrequency.mk kc.1 (round2 ((kc.2 : ℚ) / (totalOcc st.types : ℚ) * 100)))
      rw [← buildField_types fuel p st allStats td, h2, List.pairwise_cons] at hp
      intro tf htf
      rcases List.mem_cons.mp htf with rfl | htf'
      · exact le_refl _
      · have := hp.1 tf htf'
        simp only [freqMore, decide_eq_false_iff_not, not_lt] at this
        exact this
    · rw [buildField_inferred, h2]
      rfl

/-- Witness for C4: 9 int32 and 1 string occurrence give top frequency 90,
so the inferred type is the top type. -/
theorem c4_inferred_type_dominant_or_mixed_witness :
    wStat.types ≠ [] ∧
      (∃ top rest, (buildField 0 "a" wStat [] 1).types = top :: rest ∧
        (∀ tf ∈ (buildField 0 "a" wStat [] 1).types,
          tf.frequencyPercent ≤ top.frequencyPercent) ∧
        (buildField 0 "a" wStat [] 1).inferredType =
          (if 75 < top.frequencyPercent then top.type else "mixed")) :=
  ⟨by decide, c4_inferred_type_dominant_or_mixed 0 "a" wStat [] 1 (by decide)⟩

/-- Fold of the confidence loop expressed as a mapped sum. -/
theorem foldl_contrib (l : List Field) :
    ∀ a : ℚ, l.foldl
      (fun acc f =>
        match f.types with
        | [] => acc
        | top :: _ => acc + top.frequencyPercent / 100 * (f.presencePercent / 100))
      a = a + (l.map contribOf).sum := by
  induction l with
  | nil => intro a; simp
  | cons f t ih =>
    intro a
    simp only [List.foldl_cons, List.map_cons, List.sum_cons]
    cases hf : f.types with
    | nil =>
      rw [ih]
      simp [contribOf, hf]
    | cons top tfs =>
      rw [ih]
      simp only [contribOf, hf]
      ring

/-- C8: the schema confidence is the arithmetic mean over the top-level
fields of (dominant-type frequency / 100 × presence / 100), scaled to a
percentage and rounded to 2 decimals; an empty field list gives 0, and the
analysis result always carries the confidence of its own field list. -/
theorem c8_schema_confidence_formula :
    (∀ fields : List Field,
      calculateSchemaConfidence fields =
        if fields.length = 0 then 0
        else round2 ((fields.map contribOf).sum / (fields.length : ℚ) * 100)) ∧
    (∀ (fuel : Nat) (docs : List BDoc),
      (analyzeDocuments fuel docs).schemaConfidence =
        calculateSchemaConfidence (analyzeDocuments fuel docs).fields) := by
  constructor
  · intro fields
    unfold calculateSchemaConfidence
    by_cases h : fields.length = 0
    · rw [if_pos h, if_pos h]
    · rw [if_neg h, if_neg h]
      rw [foldl_contrib]
      norm_num
  · intro fuel docs
    by_cases h : docs.length = 0
    · simp [analyzeDocuments, h, calculateSchemaConfidence]
    · simp [analyzeDocuments, h]

/-! ### Lemmas for the ordering claim -/

theorem countP_isIdB_le_one :
    ∀ {l : List Field}, (l.map (fun f => f.path)).Nodup → l.countP isIdB ≤ 1 := by
  intro l
  induction l with
  | nil => intro _; simp
  | cons f t ih =>
    intro h
    rw [List.map_cons, List.nodup_cons] at h
    obtain ⟨hf, ht⟩ := h
    rw [List.countP_cons]
    by_cases hid : isIdB f = true
    · have hzero : t.countP isIdB = 0 := by
        rw [List.countP_eq_zero]
        intro g hg
        intro hgid
        apply hf
        have h1 : g.path = "_id" := by simpa [isIdB] using hgid
        have h2 : f.path = "_id" := by simpa [isIdB] using hid
        rw [h2, ← h1]
        exact List.mem_map_of_mem (fun f => f.path) hg
      rw [hzero, hid]
      simp
    · rw [Bool.not_eq_true] at hid
      rw [hid]
      have := ih ht
      simp only [Bool.false_eq_true, if_false]
      omega

theorem idFieldLess_false_cases {f g : Field} (h : idFieldLess g f = false) :
    f.path = "_id" ∨ (g.path ≠ "_id" ∧ (strLt f.path g.path = true ∨ f.path = g.path)) := by
  unfold idFieldLess at h
  by_cases hg : g.path = "_id"
  · rw [if_pos hg] at h
    exact absurd h (by simp)
  · rw [if_neg hg] at h
    by_cases hf : f.path = "_id"
    · exact Or.inl hf
    · rw [if_neg hf] at h
      refine Or.inr ⟨hg, ?_⟩
      cases hfg : strLt f.path g.path with
      | true => exact Or.inl rfl
      | false => exact Or.inr (strLt_total hfg h)

theorem pathLess_false_cases {f g : Field} (h : pathLess g f = false) :
    strLt f.path g.path = true ∨ f.path = g.path := by
  unfold pathLess at h
  cases hfg : strLt f.path g.path with
  | true => exact Or.inl rfl
  | false => exact Or.inr (strLt_total hfg h)

theorem analyzeDocuments_fields (fuel : Nat) (docs : List BDoc) (h : docs.length ≠ 0) :
    (analyzeDocuments fuel docs).fields = sortLess idFieldLess
      (((collectStats docs).filter fun pst => !(hasDot pst.1)).map
        fun pst => buildField fuel pst.1 pst.2 (collectStats docs) docs.length) := by
  unfold analyzeDocuments
  rw [if_neg h]

/-- C6: the top-level field list is sorted alphabetically by path except
that `_id` (when present) comes first; every nested field list produced by
`getNestedFields` is sorted alphabetically by relative path with no `_id`
exception.  (`strLt` is the embedded Go string comparison.) -/
theorem c6_field_ordering :
    (∀ (fuel : Nat) (docs : List BDoc),
      (analyzeDocuments fuel docs).fields.Pairwise fun f g =>
        f.path = "_id" ∨
          (g.path ≠ "_id" ∧ (strLt f.path g.path = true ∨ f.path = g.path))) ∧
    (∀ (fuel : Nat) (parentPath : String) (allStats : Stats) (td : Nat),
      (getNestedFields fuel parentPath allStats td).Pairwise fun f g =>
        strLt f.path g.path = true ∨ f.path = g.path) := by
  constructor
  · intro fuel docs
    by_cases h : docs.length = 0
    · simp [analyzeDocuments, h]
    · rw [analyzeDocuments_fields fuel docs h]
      set built := ((collectStats docs).filter fun pst => !(hasDot pst.1)).map
        fun pst => buildField fuel pst.1 pst.2 (collectStats docs) docs.length with hbuilt
      have h1 : (statKeys (collectStats docs)).Nodup := nodup_statKeys_collectStats docs
      have h2 : (((collectStats docs).filter fun pst => !(hasDot pst.1)).map
          Prod.fst).Nodup :=
        h1.sublist ((List.filter_sublist _).map Prod.fst)
      have h3 : built.map (fun f => f.path) =
          ((collectStats docs).filter fun pst => !(hasDot pst.1)).map Prod.fst := by
        rw [hbuilt, List.map_map]
        rfl
      have h4 : built.countP isIdB ≤ 1 := countP_isIdB_le_one (h3 ▸ h2)
      exact (pairwise_sortLess_id h4).imp fun hfg => idFieldLess_false_cases hfg
  · intro fuel parentPath allStats td
    cases fuel with
    | zero => simp [getNestedFields]
    | succ fuel' =>
      rw [getNestedFields]
      exact (pairwise_sortLess pathLess_trans pathLess_asymm _).imp
        fun hfg => pathLess_false_cases hfg

/-! ### C2: presence percent -/

/-- C2 counterexample: on the single document `{tags: [1, 2]}` the derived
path `tags[]` has 2 occurrences against 1 sampled document, so its presence
percent is 200, outside `[0, 100]` — refuting the claim that every field's
presence percent lies in `[0, 100]`. -/
theorem c2_counterexample :
    (analyzeDocuments 5 [c2doc]).fields.map (fun f => (f.path, f.presencePercent)) =
      [("tags", 100), ("tags[]", 200)] ∧ ¬((200 : ℚ) ≤ 100) := by
  constructor
  · have h : (analyzeDocuments 5 [c2doc]).fields.map (fun f => (f.path, f.presencePercent))
        = [("tags", round2 ((1 : ℚ) / (1 : ℚ) * 100)),
            ("tags[]", round2 ((2 : ℚ) / (1 : ℚ) * 100))] := by rfl
    rw [h]
    norm_num [round2]
  · norm_num

/-- C2 as amended: every field's presence percent is
`round2(occurrences ÷ totalDocs × 100)`; the value is always nonnegative
and is at most 100 whenever the path occurs in at most as many places as
there are documents (true for every path that is not an array-element `[]`
derivation); array-element paths can occur more often than the documents
and then exceed 100.  The second conjunct ties every top-level field of an
analysis to its statistics entry. -/
theorem c2_presence_percent_amended :
    (∀ (fuel : Nat) (p : String) (st : FieldStat) (allStats : Stats) (td : Nat),
      0 < td →
        (buildField fuel p st allStats td).presencePercent =
          round2 ((st.occurrences : ℚ) / (td : ℚ) * 100) ∧
        0 ≤ (buildField fuel p st allStats td).presencePercent ∧
        (st.occurrences ≤ td → (buildField fuel p st allStats td).presencePercent ≤ 100)) ∧
    (∀ (fuel : Nat) (docs : List BDoc) (f : Field),
      f ∈ (analyzeDocuments fuel docs).fields →
        ∃ st : FieldStat, (f.path, st) ∈ collectStats docs ∧
          f.presencePercent = round2 ((st.occurrences : ℚ) / (docs.length : ℚ) * 100)) := by
  constructor
  · intro fuel p st allStats td htd
    refine ⟨buildField_presence fuel p st allStats td, ?_, ?_⟩
    · rw [buildField_presence]
      apply round2_nonneg
      positivity
    · intro hocc
      rw [buildField_presence]
      apply round2_le_100
      have h1 : (st.occurrences : ℚ) ≤ (td : ℚ) := by exact_mod_cast hocc
      have h2 : (0 : ℚ) < (td : ℚ) := by exact_mod_cast htd
      rw [div_mul_eq_mul_div, div_le_iff₀ h2]
      nlinarith
  · intro fuel docs f hf
    by_cases h : docs.length = 0
    · simp [analyzeDocuments, h] at hf
    · rw [analyzeDocuments_fields fuel docs h] at hf
      rw [mem_sortLess] at hf
      obtain ⟨pst, hpst, rfl⟩ := List.mem_map.mp hf
      refine ⟨pst.2, ?_, buildField_presence _ _ _ _ _⟩
      rw [buildField_path]
      exact List.mem_of_mem_filter hpst

/-- Witness for C2 as amended: the field built from `wStat` over 2
documents has presence percent 50. -/
theorem c2_presence_percent_amended_witness :
    0 < 2 ∧
      ((buildField 0 "a" wStat [] 2).presencePercent =
          round2 ((wStat.occurrences : ℚ) / (2 : ℚ) * 100) ∧
        0 ≤ (buildField 0 "a" wStat [] 2).presencePercent ∧
        (wStat.occurrences ≤ 2 → (buildField 0 "a" wStat [] 2).presencePercent ≤ 100)) :=
  ⟨by norm_num, c2_presence_percent_amended.1 0 "a" wStat [] 2 (by norm_num)⟩

/-! ### C5: type-frequency percents -/

/-- Lemma expressing `totalOcc` as a mapped sum. -/
theorem totalOcc_eq_sum (ts : List (String × Nat)) :
    totalOcc ts = (ts.map fun kc => kc.2).sum := by
  suffices h : ∀ a : Nat, ts.foldl (fun a kc => a + kc.2) a = a + (ts.map fun kc => kc.2).sum by
    have := h 0
    simpa [totalOcc] using this
  induction ts with
  | nil => intro a; simp
  | cons kc rest ih =>
    intro a
    simp only [List.foldl_cons, List.map_cons, List.sum_cons]
    rw [ih]
    ring

theorem sum_div_mul (ts : List (String × Nat)) (T : ℚ) :
    (ts.map fun kc => (kc.2 : ℚ) / T * 100).sum =
      ((ts.map fun kc => ((kc.2 : Nat) : ℚ)).sum) / T * 100 := by
  induction ts with
  | nil => simp
  | cons kc rest ih =>
    simp only [List.map_cons, List.sum_cons]
    rw [ih]
    ring

/-- C5 counterexample: a field observed with 6 types (counts 1,1,1,1,3,25
out of 32) has rounded frequencies summing to 100.03, which misses 100 by
0.03 > 0.02 — refuting the claimed tolerance of 0.02. -/
theorem c5_counterexample :
    (analyzeDocuments 1 c5docs).fields.map freqSum = [10003 / 100] ∧
      ¬(|(10003 / 100 : ℚ) - 100| ≤ 2 / 100) := by
  constructor
  · have h0 : (analyzeDocuments 1 c5docs).fields.map freqSum =
        [freqSum (buildField 1 "a" c5stat (collectStats c5docs) 32)] := by rfl
    rw [h0]
    have h1 : freqSum (buildField 1 "a" c5stat (collectStats c5docs) 32) =
        ((c5stat.types.map fun kc =>
          TypeFrequency.mk kc.1 (round2 ((kc.2 : ℚ) / (totalOcc c5stat.types : ℚ) * 100))).map
            (fun tf => tf.frequencyPercent)).sum := by
      unfold freqSum
      rw [buildField_types]
      exact ((perm_sortLess freqMore _).map fun tf => tf.frequencyPercent).sum_eq
    rw [h1]
    have h2 : ((c5stat.types.map fun kc =>
        TypeFrequency.mk kc.1 (round2 ((kc.2 : ℚ) / (totalOcc c5stat.types : ℚ) * 100))).map
          (fun tf => tf.frequencyPercent)).sum =
        round2 ((1 : ℚ) / 32 * 100) + (round2 ((1 : ℚ) / 32 * 100) +
          (round2 ((1 : ℚ) / 32 * 100) + (round2 ((1 : ℚ) / 32 * 100) +
            (round2 ((3 : ℚ) / 32 * 100) + (round2 ((25 : ℚ) / 32 * 100) + 0))))) := by rfl
    rw [h2]
    norm_num [round2]
  · have habs : |(10003 / 100 : ℚ) - 100| = 3 / 100 := by
      rw [show (10003 / 100 : ℚ) - 100 = 3 / 100 by norm_num]
      exact abs_of_pos (by norm_num)
    rw [habs]
    norm_num

/-- C5 as amended: each type entry's frequency percent is
`round2(count ÷ totalOccurrences × 100)` with round-half-up, and the sum of
the frequency percents differs from 100 by at most `k × 0.005` where `k` is
the number of distinct observed types — hence within 0.02 only when
`k ≤ 4`; with 5 or more types the deviation can exceed 0.02. -/
theorem c5_frequency_percents_amended (fuel : Nat) (p : String) (st : FieldStat)
    (allStats : Stats) (td : Nat) (h : 0 < totalOcc st.types) :
    (∀ tf ∈ (buildField fuel p st allStats td).types,
      ∃ c : Nat, (tf.type, c) ∈ st.types ∧
        tf.frequencyPercent = round2 ((c : ℚ) / (totalOcc st.types : ℚ) * 100)) ∧
    |freqSum (buildField fuel p st allStats td) - 100| ≤
      (st.types.length : ℚ) * (1 / 200) := by
  constructor
  · intro tf htf
    rw [buildField_types, mem_sortLess] at htf
    obtain ⟨kc, hkc, rfl⟩ := List.mem_map.mp htf
    exact ⟨kc.2, by simpa using hkc, rfl⟩
  · have hT : ((totalOcc st.types : ℚ)) ≠ 0 := by
      have : (0 : ℚ) < (totalOcc st.types : ℚ) := by exact_mod_cast h
      exact ne_of_gt this
    have h1 : freqSum (buildField fuel p st allStats td) =
        ((st.types.map fun kc => (kc.2 : ℚ) / (totalOcc st.types : ℚ) * 100).map
          round2).sum := by
      unfold freqSum
      rw [buildField_types]
      rw [((perm_sortLess freqMore _).map fun tf => tf.frequencyPercent).sum_eq]
      rw [List.map_map, List.map_map]
      rfl
    have h2 : (st.types.map fun kc => (kc.2 : ℚ) / (totalOcc st.types : ℚ) * 100).sum
        = 100 := by
      rw [sum_div_mul]
      have h3 : (st.types.map fun kc => ((kc.2 : Nat) : ℚ)).sum =
          ((totalOcc st.types : ℚ)) := by
        rw [totalOcc_eq_sum]
        rw [Nat.cast_list_sum]
        rw [List.map_map]
        rfl
      rw [h3, div_self hT]
      norm_num
    have h4 := abs_sum_round2_sub_le
      (st.types.map fun kc => (kc.2 : ℚ) / (totalOcc st.types : ℚ) * 100)
    rw [h2, List.length_map] at h4
    rw [h1]
    exact h4

/-- Witness for C5 as amended at `wStat` (two types, counts 9 and 1). -/
theorem c5_frequency_percents_amended_witness :
    0 < totalOcc wStat.types ∧
      ((∀ tf ∈ (buildField 0 "a" wStat [] 1).types,
        ∃ c : Nat, (tf.type, c) ∈ wStat.types ∧
          tf.frequencyPercent = round2 ((c : ℚ) / (totalOcc wStat.types : ℚ) * 100)) ∧
      |freqSum (buildField 0 "a" wStat [] 1) - 100| ≤
        (wStat.types.length : ℚ) * (1 / 200)) :=
  ⟨by decide, c5_frequency_percents_amended 0 "a" wStat [] 1 (by decide)⟩

/-! ### C1: nested attachment -/

/-- C1 (code-bug evaluation): on `[{a: {b: {c: 1}}}]` the aggregator
records the paths `a`, `a.b` and `a.b.c`, but the built tree contains only
`a` with single child `b`, and `b` has no children — the grandchild path
`a.b.c` is attached nowhere because `getNestedFields` hands the *relative*
path `b` to `buildField`, which then scans for keys prefixed `b.` instead
of `a.b.`. -/
theorem c1_grandchild_dropped :
    (collectStats [c1doc]).map Prod.fst = ["a", "a.b", "a.b.c"] ∧
      (analyzeDocuments 10 [c1doc]).fields.map
          (fun f => (f.path, f.nestedFields.map fun g => (g.path, g.nestedFields.length)))
        = [("a", [("b", 0)])] := by
  constructor
  · decide
  · decide

/-! ### String prefix lemmas -/

theorem strStarts_iff {s p : String} : strStarts s p = true ↔ p.data <+: s.data := by
  simp [strStarts]

theorem strStarts_append_left (a b : String) : strStarts (a ++ b) a = true := by
  rw [strStarts_iff, String.data_append]
  exact List.prefix_append a.data b.data

theorem strStarts_trans {a b c : String} (h1 : strStarts b a = true)
    (h2 : strStarts c b = true) : strStarts c a = true := by
  rw [strStarts_iff] at *
  exact h1.trans h2

theorem strStarts_self (a : String) : strStarts a a = true := by
  rw [strStarts_iff]

theorem strStarts_empty_pre (k : String) : strStarts k "" = true := by
  simp [strStarts]

theorem strStarts_false_of_longer {a b : String}
    (h : a.data.length < b.data.length) : strStarts a b = false := by
  cases hs : strStarts a b
  · rfl
  · have := (strStarts_iff.mp hs).length_le
    omega

theorem data_length_append (a b : String) :
    (a ++ b).data.length = a.data.length + b.data.length := by
  rw [String.data_append, List.length_append]

theorem ne_of_data_len {a b : String} (h : a.data.length ≠ b.data.length) : a ≠ b := by
  intro he
  exact h (congrArg (fun s => s.data.length) he)

theorem strStarts_self_append_false {k c : String} (hc : c.data.length ≠ 0) :
    strStarts k (k ++ c) = false := by
  apply strStarts_false_of_longer
  rw [data_length_append]
  omega

theorem append_ne_self {k c : String} (hc : c.data.length ≠ 0) : k ++ c ≠ k := by
  apply ne_of_data_len
  rw [data_length_append]
  omega

theorem ne_empty_of_append_left {a b : String} (ha : a.data.length ≠ 0) : a ++ b ≠ "" := by
  apply ne_of_data_len
  rw [data_length_append]
  have h0 : ("" : String).data.length = 0 := rfl
  omega

/-! ### Access lemmas for the statistics map -/

theorem lookupStat_setStat :
    ∀ (s : Stats) (p : String) (f : FieldStat) (k : String),
      lookupStat (setStat s p f) k = if p = k then some f else lookupStat s k := by
  intro s p f k
  induction s with
  | nil =>
    simp [setStat, lookupStat]
  | cons e rest ih =>
    obtain ⟨q, g⟩ := e
    by_cases h : q = p
    · subst h
      simp only [setStat, if_pos rfl, lookupStat]
      by_cases h2 : q = k
      · simp [h2]
      · simp [h2]
    · simp only [setStat, if_neg h, lookupStat]
      by_cases h2 : q = k
      · rw [if_pos h2, if_neg (fun hpk => h (h2.trans hpk.symm)), if_pos h2]
      · rw [if_neg h2, ih]
        by_cases h3 : p = k
        · rw [if_pos h3, if_pos h3]
        · rw [if_neg h3, if_neg h3, if_neg h2]

theorem getOr_setStat (s : Stats) (p : String) (f : FieldStat) (k : String) :
    getOr (setStat s p f) k = if p = k then f else getOr s k := by
  unfold getOr
  rw [lookupStat_setStat]
  by_cases h : p = k
  · rw [if_pos h, if_pos h]
    rfl
  · rw [if_neg h, if_neg h]

theorem getOr_recordType_self (s : Stats) (p t : String) :
    getOr (recordType s p t) p =
      ⟨(getOr s p).occurrences + 1, bumpType (getOr s p).types t,
        (getOr s p).isObject || (t = "object"),
        (getOr s p).isArray || (t = "array")⟩ := by
  unfold recordType
  rw [getOr_setStat, if_pos rfl]

theorem getOr_recordType_ne (s : Stats) (p t k : String) (h : p ≠ k) :
    getOr (recordType s p t) k = getOr s k := by
  unfold recordType
  rw [getOr_setStat, if_neg h]

theorem getOr_recordElem_self (s : Stats) (p t : String) :
    getOr (recordElem s p t) p =
      ⟨(getOr s p).occurrences + 1, bumpType (getOr s p).types t,
        (getOr s p).isObject, (getOr s p).isArray⟩ := by
  unfold recordElem
  rw [getOr_setStat, if_pos rfl]

theorem getOr_recordElem_ne (s : Stats) (p t k : String) (h : p ≠ k) :
    getOr (recordElem s p t) k = getOr s k := by
  unfold recordElem
  rw [getOr_setStat, if_neg h]

theorem lookupStat_append_single :
    ∀ (s : Stats) (p : String) (f : FieldStat) (k : String),
      lookupStat (s ++ [(p, f)]) k =
        match lookupStat s k with
        | some g => some g
        | none => if p = k then some f else none := by
  intro s p f k
  induction s with
  | nil => simp [lookupStat]
  | cons e rest ih =>
    obtain ⟨q, g⟩ := e
    by_cases h : q = k
    · simp only [List.cons_append, lookupStat, if_pos h]
    · simp only [List.cons_append, lookupStat, if_neg h]
      exact ih

theorem getOr_ensureStat_ne (s : Stats) (p k : String) (h : p ≠ k) :
    getOr (ensureStat s p) k = getOr s k := by
  unfold ensureStat
  cases hl : lookupStat s p
  · unfold getOr
    rw [lookupStat_append_single]
    cases lookupStat s k
    · rw [if_neg h]
    · rfl
  · rfl

theorem getOr_ensureStat_self (s : Stats) (p : String) :
    getOr (ensureStat s p) p = getOr s p := by
  unfold ensureStat
  cases hl : lookupStat s p
  · unfold getOr
    rw [lookupStat_append_single, hl, if_pos rfl]
    rfl
  · rfl

theorem typeCount_bumpType :
    ∀ (ts : List (String × Nat)) (u t : String),
      typeCount (bumpType ts u) t = typeCount ts t + (if u = t then 1 else 0) := by
  intro ts u t
  induction ts with
  | nil =>
    by_cases h : u = t
    · subst h
      simp [bumpType, typeCount, List.lookup]
    · have hbe : (t == u) = false := by
        simp only [beq_eq_false_iff_ne, ne_eq]
        exact fun hh => h hh.symm
      simp [bumpType, typeCount, List.lookup, hbe, h]
  | cons e rest ih =>
    obtain ⟨w, n⟩ := e
    by_cases h : w = u
    · subst h
      by_cases h2 : w = t
      · subst h2
        simp [bumpType, typeCount, List.lookup]
      · have hbe : (t == w) = false := by
          simp only [beq_eq_false_iff_ne, ne_eq]
          exact fun hh => h2 hh.symm
        simp [bumpType, typeCount, List.lookup, hbe, h2]
    · by_cases h2 : w = t
      · subst h2
        have hne : ¬ u = w := fun hh => h hh.symm
        simp [bumpType, typeCount, List.lookup, h, hne]
      · have hbe : (t == w) = false := by
          simp only [beq_eq_false_iff_ne, ne_eq]
          exact fun hh => h2 hh.symm
        simp only [bumpType, if_neg h, typeCount, List.lookup, hbe]
        exact ih

theorem ne_empty_of_append_right {a b : String} (hb : b.data.length ≠ 0) :
    a ++ b ≠ "" := by
  apply ne_of_data_len
  rw [data_length_append]
  have h0 : ("" : String).data.length = 0 := rfl
  omega

/-! ### Extraction touches only keys below its prefix -/

mutual

theorem extractFields_untouched (d : BDoc) (pre : String) (s : Stats) (k : String)
    (hpre : pre ≠ "") (hk : strStarts k (pre ++ ".") = false) :
    getOr (extractFields d pre s) k = getOr s k := by
  match d with
  | .nil => rfl
  | .cons key value rest =>
    have hpath : mkPath pre key = pre ++ "." ++ key := by
      unfold mkPath
      rw [if_neg hpre]
    have hpk : strStarts (mkPath pre key) (pre ++ ".") = true := by
      rw [hpath]
      exact strStarts_append_left (pre ++ ".") key
    have hne : mkPath pre key ≠ k := by
      intro he
      rw [he] at hpk
      rw [hk] at hpk
      exact Bool.noConfusion hpk
    have hs1 : getOr (recordType s (mkPath pre key) (getBSONTypeName value)) k = getOr s k :=
      getOr_recordType_ne _ _ _ _ hne
    have hdl : ("." : String).data.length = 1 := rfl
    cases value with
    | obj nested =>
      have hpne : mkPath pre key ≠ "" := by
        rw [hpath]
        exact ne_empty_of_append_left (by rw [data_length_append, hdl]; omega)
      have hk2 : strStarts k (mkPath pre key ++ ".") = false := by
        cases hc : strStarts k (mkPath pre key ++ ".") with
        | false => rfl
        | true =>
          have t1 : strStarts (mkPath pre key ++ ".") (pre ++ ".") = true :=
            strStarts_trans hpk (strStarts_append_left (mkPath pre key) ".")
          have t2 := strStarts_trans t1 hc
          rw [t2] at hk
          exact Bool.noConfusion hk
      exact (extractFields_untouched rest pre _ k hpre hk).trans
        ((extractFields_untouched nested (mkPath pre key) _ k hpne hk2).trans hs1)
    | arr items =>
      have hbne : mkPath pre key ++ "[]" ≠ k := by
        intro he
        have t1 : strStarts (mkPath pre key ++ "[]") (pre ++ ".") = true :=
          strStarts_trans hpk (strStarts_append_left (mkPath pre key) "[]")
        rw [he] at t1
        rw [hk] at t1
        exact Bool.noConfusion t1
      have hk3 : strStarts k (mkPath pre key ++ "[]") = false := by
        cases hc : strStarts k (mkPath pre key ++ "[]") with
        | false => rfl
        | true =>
          have t1 : strStarts (mkPath pre key ++ "[]") (pre ++ ".") = true :=
            strStarts_trans hpk (strStarts_append_left (mkPath pre key) "[]")
          have t2 := strStarts_trans t1 hc
          rw [t2] at hk
          exact Bool.noConfusion hk
      exact (extractFields_untouched rest pre _ k hpre hk).trans
        ((analyzeArrayLoop_untouched items (mkPath pre key ++ "[]") _ k hk3).trans
          ((getOr_ensureStat_ne _ _ _ hbne).trans hs1))
    | null => exact (extractFields_untouched rest pre _ k hpre hk).trans hs1
    | str v => exact (extractFields_untouched rest pre _ k hpre hk).trans hs1
    | i32 v => exact (extractFields_untouched rest pre _ k hpre hk).trans hs1
    | i64 v => exact (extractFields_untouched rest pre _ k hpre hk).trans hs1
    | dbl v => exact (extractFields_untouched rest pre _ k hpre hk).trans hs1
    | boolean v => exact (extractFields_untouched rest pre _ k hpre hk).trans hs1
    | objectId => exact (extractFields_untouched rest pre _ k hpre hk).trans hs1
    | date => exact (extractFields_untouched rest pre _ k hpre hk).trans hs1
    | binData => exact (extractFields_untouched rest pre _ k hpre hk).trans hs1
    | regex => exact (extractFields_untouched rest pre _ k hpre hk).trans hs1
    | decimal => exact (extractFields_untouched rest pre _ k hpre hk).trans hs1
    | timestamp => exact (extractFields_untouched rest pre _ k hpre hk).trans hs1
termination_by structural d

theorem analyzeArrayLoop_untouched (items : BArr) (arrayPath : String) (s : Stats)
    (k : String) (hk : strStarts k arrayPath = false) :
    getOr (analyzeArrayLoop items arrayPath s) k = getOr s k := by
  match items with
  | .nil => rfl
  | .cons item rest =>
    have hne : arrayPath ≠ k := by
      intro he
      rw [he] at hk
      rw [strStarts_self k] at hk
      exact Bool.noConfusion hk
    have hs1 : getOr (recordElem s arrayPath (getBSONTypeName item)) k = getOr s k :=
      getOr_recordElem_ne _ _ _ _ hne
    cases item with
    | obj nested =>
      have hA : arrayPath ≠ "" := by
        intro he
        rw [he] at hk
        rw [strStarts_empty_pre k] at hk
        exact Bool.noConfusion hk
      have hk2 : strStarts k (arrayPath ++ ".") = false := by
        cases hc : strStarts k (arrayPath ++ ".") with
        | false => rfl
        | true =>
          have t1 : strStarts (arrayPath ++ ".") arrayPath = true :=
            strStarts_append_left arrayPath "."
          have t2 := strStarts_trans t1 hc
          rw [t2] at hk
          exact Bool.noConfusion hk
      exact (analyzeArrayLoop_untouched rest arrayPath _ k hk).trans
        ((extractFields_untouched nested arrayPath _ k hA hk2).trans hs1)
    | arr xs => exact (analyzeArrayLoop_untouched rest arrayPath _ k hk).trans hs1
    | null => exact (analyzeArrayLoop_untouched rest arrayPath _ k hk).trans hs1
    | str v => exact (analyzeArrayLoop_untouched rest arrayPath _ k hk).trans hs1
    | i32 v => exact (analyzeArrayLoop_untouched rest arrayPath _ k hk).trans hs1
    | i64 v => exact (analyzeArrayLoop_untouched rest arrayPath _ k hk).trans hs1
    | dbl v => exact (analyzeArrayLoop_untouched rest arrayPath _ k hk).trans hs1
    | boolean v => exact (analyzeArrayLoop_untouched rest arrayPath _ k hk).trans hs1
    | objectId => exact (analyzeArrayLoop_untouched rest arrayPath _ k hk).trans hs1
    | date => exact (analyzeArrayLoop_untouched rest arrayPath _ k hk).trans hs1
    | binData => exact (analyzeArrayLoop_untouched rest arrayPath _ k hk).trans hs1
    | regex => exact (analyzeArrayLoop_untouched rest arrayPath _ k hk).trans hs1
    | decimal => exact (analyzeArrayLoop_untouched rest arrayPath _ k hk).trans hs1
    | timestamp => exact (analyzeArrayLoop_untouched rest arrayPath _ k hk).trans hs1
termination_by structural items

end

/-- The element loop adds one occurrence per element and one type count
per element tag to the `[]` entry, regardless of what the recursion into
object elements does elsewhere. -/
theorem analyzeArrayLoop_counts (items : BArr) (arrayPath : String) (s : Stats)
    (hA : arrayPath ≠ "") :
    (getOr (analyzeArrayLoop items arrayPath s) arrayPath).occurrences
        = (getOr s arrayPath).occurrences + items.length ∧
      ∀ t, typeCount (getOr (analyzeArrayLoop items arrayPath s) arrayPath).types t
        = typeCount (getOr s arrayPath).types t + tagCount t items := by
  match items with
  | .nil =>
    constructor
    · show (getOr s arrayPath).occurrences = _
      simp [BArr.length]
    · intro t
      show typeCount (getOr s arrayPath).types t = _
      simp [tagCount]
  | .cons item rest =>
    have hs1occ : (getOr (recordElem s arrayPath (getBSONTypeName item)) arrayPath).occurrences
        = (getOr s arrayPath).occurrences + 1 := by
      rw [getOr_recordElem_self]
    have hs1tc : ∀ t,
        typeCount (getOr (recordElem s arrayPath (getBSONTypeName item)) arrayPath).types t
          = typeCount (getOr s arrayPath).types t
              + (if getBSONTypeName item = t then 1 else 0) := by
      intro t
      rw [getOr_recordElem_self]
      exact typeCount_bumpType _ _ _
    have hlen : (BArr.cons item rest).length = 1 + rest.length := rfl
    have htag : ∀ t, tagCount t (BArr.cons item rest)
        = (if getBSONTypeName item = t then 1 else 0) + tagCount t rest := fun t => rfl
    cases item with
    | obj nested =>
      have hk2 : strStarts arrayPath (arrayPath ++ ".") = false :=
        strStarts_self_append_false (by decide)
      have huntouched :
          getOr (extractFields nested arrayPath
              (recordElem s arrayPath (getBSONTypeName (BVal.obj nested)))) arrayPath
            = getOr (recordElem s arrayPath (getBSONTypeName (BVal.obj nested))) arrayPath :=
        extractFields_untouched nested arrayPath _ arrayPath hA hk2
      obtain ⟨hro, hrt⟩ := analyzeArrayLoop_counts rest arrayPath
        (extractFields nested arrayPath
          (recordElem s arrayPath (getBSONTypeName (BVal.obj nested)))) hA
      constructor
      · rw [show (getOr (analyzeArrayLoop (BArr.cons (BVal.obj nested) rest) arrayPath s)
            arrayPath).occurrences
            = (getOr (analyzeArrayLoop rest arrayPath
                (extractFields nested arrayPath
                  (recordElem s arrayPath (getBSONTypeName (BVal.obj nested)))))
                arrayPath).occurrences from rfl]
        rw [hro, huntouched, hs1occ, hlen]
        omega
      · intro t
        rw [show typeCount (getOr (analyzeArrayLoop (BArr.cons (BVal.obj nested) rest)
              arrayPath s) arrayPath).types t
            = typeCount (getOr (analyzeArrayLoop rest arrayPath
                (extractFields nested arrayPath
                  (recordElem s arrayPath (getBSONTypeName (BVal.obj nested)))))
                arrayPath).types t from rfl]
        rw [hrt t, huntouched, hs1tc t, htag t]
        omega
    | arr xs =>
      obtain ⟨hro, hrt⟩ := analyzeArrayLoop_counts rest arrayPath
        (recordElem s arrayPath (getBSONTypeName (BVal.arr xs))) hA
      exact ⟨by rw [show (getOr (analyzeArrayLoop (BArr.cons (BVal.arr xs) rest) arrayPath s)
          arrayPath).occurrences
          = (getOr (analyzeArrayLoop rest arrayPath
              (recordElem s arrayPath (getBSONTypeName (BVal.arr xs)))) arrayPath).occurrences
          from rfl, hro, hs1occ, hlen]; omega,
        fun t => by rw [show typeCount (getOr (analyzeArrayLoop (BArr.cons (BVal.arr xs) rest)
            arrayPath s) arrayPath).types t
            = typeCount (getOr (analyzeArrayLoop rest arrayPath
                (recordElem s arrayPath (getBSONTypeName (BVal.arr xs)))) arrayPath).types t
            from rfl, hrt t, hs1tc t, htag t]; omega⟩
    | null =>
      obtain ⟨hro, hrt⟩ := analyzeArrayLoop_counts rest arrayPath
        (recordElem s arrayPath (getBSONTypeName BVal.null)) hA
      exact ⟨by rw [show (getOr (analyzeArrayLoop (BArr.cons BVal.null rest) arrayPath s)
          arrayPath).occurrences
          = (getOr (analyzeArrayLoop rest arrayPath
              (recordElem s arrayPath (getBSONTypeName BVal.null))) arrayPath).occurrences
          from rfl, hro, hs1occ, hlen]; omega,
        fun t => by rw [show typeCount (getOr (analyzeArrayLoop (BArr.cons BVal.null rest)
            arrayPath s) arrayPath).types t
            = typeCount (getOr (analyzeArrayLoop rest arrayPath
                (recordElem s arrayPath (getBSONTypeName BVal.null))) arrayPath).types t
            from rfl, hrt t, hs1tc t, htag t]; omega⟩
    | str v =>
      obtain ⟨hro, hrt⟩ := analyzeArrayLoop_counts rest arrayPath
        (recordElem s arrayPath (getBSONTypeName (BVal.str v))) hA
      exact ⟨by rw [show (getOr (analyzeArrayLoop (BArr.cons (BVal.str v) rest) arrayPath s)
          arrayPath).occurrences
          = (getOr (analyzeArrayLoop rest arrayPath
              (recordElem s arrayPath (getBSONTypeName (BVal.str v)))) arrayPath).occurrences
          from rfl, hro, hs1occ, hlen]; omega,
        fun t => by rw [show typeCount (getOr (analyzeArrayLoop (BArr.cons (BVal.str v) rest)
            arrayPath s) arrayPath).types t
            = typeCount (getOr (analyzeArrayLoop rest arrayPath
                (recordElem s arrayPath (getBSONTypeName (BVal.str v)))) arrayPath).types t
            from rfl, hrt t, hs1tc t, htag t]; omega⟩
    | i32 v =>
      obtain ⟨hro, hrt⟩ := analyzeArrayLoop_counts rest arrayPath
        (recordElem s arrayPath (getBSONTypeName (BVal.i32 v))) hA
      exact ⟨by rw [show (getOr (analyzeArrayLoop (BArr.cons (BVal.i32 v) rest) arrayPath s)
          arrayPath).occurrences
          = (getOr (analyzeArrayLoop rest arrayPath
              (recordElem s arrayPath (getBSONTypeName (BVal.i32 v)))) arrayPath).occurrences
          from rfl, hro, hs1occ, hlen]; omega,
        fun t => by rw [show typeCount (getOr (analyzeArrayLoop (BArr.cons (BVal.i32 v) rest)
            arrayPath s) arrayPath).types t
            = typeCount (getOr (analyzeArrayLoop rest arrayPath
                (recordElem s arrayPath (getBSONTypeName (BVal.i32 v)))) arrayPath).types t
            from rfl, hrt t, hs1tc t, htag t]; omega⟩
    | i64 v =>
      obtain ⟨hro, hrt⟩ := analyzeArrayLoop_counts rest arrayPath
        (recordElem s arrayPath (getBSONTypeName (BVal.i64 v))) hA
      exact ⟨by rw [show (getOr (analyzeArrayLoop (BArr.cons (BVal.i64 v) rest) arrayPath s)
          arrayPath).occurrences
          = (getOr (analyzeArrayLoop rest arrayPath
              (recordElem s arrayPath (getBSONTypeName (BVal.i64 v)))) arrayPath).occurrences
          from rfl, hro, hs1occ, hlen]; omega,
        fun t => by rw [show typeCount (getOr (analyzeArrayLoop (BArr.cons (BVal.i64 v) rest)
            arrayPath s) arrayPath).types t
            = typeCount (getOr (analyzeArrayLoop rest arrayPath
                (recordElem s arrayPath (getBSONTypeName (BVal.i64 v)))) arrayPath).types t
            from rfl, hrt t, hs1tc t, htag t]; omega⟩
    | dbl v =>
      obtain ⟨hro, hrt⟩ := analyzeArrayLoop_counts rest arrayPath
        (recordElem s arrayPath (getBSONTypeName (BVal.dbl v))) hA
      exact ⟨by rw [show (getOr (analyzeArrayLoop (BArr.cons (BVal.dbl v) rest) arrayPath s)
          arrayPath).occurrences
          = (getOr (analyzeArrayLoop rest arrayPath
              (recordElem s arrayPath (getBSONTypeName (BVal.dbl v)))) arrayPath).occurrences
          from rfl, hro, hs1occ, hlen]; omega,
        fun t => by rw [show typeCount (getOr (analyzeArrayLoop (BArr.cons (BVal.dbl v) rest)
            arrayPath s) arrayPath).types t
            = typeCount (getOr (analyzeArrayLoop rest arrayPath
                (recordElem s arrayPath (getBSONTypeName (BVal.dbl v)))) arrayPath).types t
            from rfl, hrt t, hs1tc t, htag t]; omega⟩
    | boolean v =>
      obtain ⟨hro, hrt⟩ := analyzeArrayLoop_counts rest arrayPath
        (recordElem s arrayPath (getBSONTypeName (BVal.boolean v))) hA
      exact ⟨by rw [show (getOr (analyzeArrayLoop (BArr.cons (BVal.boolean v) rest) arrayPath s)
          arrayPath).occurrences
          = (getOr (analyzeArrayLoop rest arrayPath
              (recordElem s arrayPath (getBSONTypeName (BVal.boolean v)))) arrayPath).occurrences
          from rfl, hro, hs1occ, hlen]; omega,
        fun t => by rw [show typeCount (getOr (analyzeArrayLoop (BArr.cons (BVal.boolean v) rest)
            arrayPath s) arrayPath).types t
            = typeCount (getOr (analyzeArrayLoop rest arrayPath
                (recordElem s arrayPath (getBSONTypeName (BVal.boolean v)))) arrayPath).types t
            from rfl, hrt t, hs1tc t, htag t]; omega⟩
    | objectId =>
      obtain ⟨hro, hrt⟩ := analyzeArrayLoop_counts rest arrayPath
        (recordElem s arrayPath (getBSONTypeName BVal.objectId)) hA
      exact ⟨by rw [show (getOr (analyzeArrayLoop (BArr.cons BVal.objectId rest) arrayPath s)
          arrayPath).occurrences
          = (getOr (analyzeArrayLoop rest arrayPath
              (recordElem s arrayPath (getBSONTypeName BVal.objectId))) arrayPath).occurrences
          from rfl, hro, hs1occ, hlen]; omega,
        fun t => by rw [show typeCount (getOr (analyzeArrayLoop (BArr.cons BVal.objectId rest)
            arrayPath s) arrayPath).types t
            = typeCount (getOr (analyzeArrayLoop rest arrayPath
                (recordElem s arrayPath (getBSONTypeName BVal.objectId))) arrayPath).types t
            from rfl, hrt t, hs1tc t, htag t]; omega⟩
    | date =>
      obtain ⟨hro, hrt⟩ := analyzeArrayLoop_counts rest arrayPath
        (recordElem s arrayPath (getBSONTypeName BVal.date)) hA
      exact ⟨by rw [show (getOr (analyzeArrayLoop (BArr.cons BVal.date rest) arrayPath s)
          arrayPath).occurrences
          = (getOr (analyzeArrayLoop rest arrayPath
              (recordElem s arrayPath (getBSONTypeName BVal.date))) arrayPath).occurrences
          from rfl, hro, hs1occ, hlen]; omega,
        fun t => by rw [show typeCount (getOr (analyzeArrayLoop (BArr.cons BVal.date rest)
            arrayPath s) arrayPath).types t
            = typeCount (getOr (analyzeArrayLoop rest arrayPath
                (recordElem s arrayPath (getBSONTypeName BVal.date))) arrayPath).types t
            from rfl, hrt t, hs1tc t, htag t]; omega⟩
    | binData =>
      obtain ⟨hro, hrt⟩ := analyzeArrayLoop_counts rest arrayPath
        (recordElem s arrayPath (getBSONTypeName BVal.binData)) hA
      exact ⟨by rw [show (getOr (analyzeArrayLoop (BArr.cons BVal.binData rest) arrayPath s)
          arrayPath).occurrences
          = (getOr (analyzeArrayLoop rest arrayPath
              (recordElem s arrayPath (getBSONTypeName BVal.binData))) arrayPath).occurrences
          from rfl, hro, hs1occ, hlen]; omega,
        fun t => by rw [show typeCount (getOr (analyzeArrayLoop (BArr.cons BVal.binData rest)
            arrayPath s) arrayPath).types t
            = typeCount (getOr (analyzeArrayLoop rest arrayPath
                (recordElem s arrayPath (getBSONTypeName BVal.binData))) arrayPath).types t
            from rfl, hrt t, hs1tc t, htag t]; omega⟩
    | regex =>
      obtain ⟨hro, hrt⟩ := analyzeArrayLoop_counts rest arrayPath
        (recordElem s arrayPath (getBSONTypeName BVal.regex)) hA
      exact ⟨by rw [show (getOr (analyzeArrayLoop (BArr.cons BVal.regex rest) arrayPath s)
          arrayPath).occurrences
          = (getOr (analyzeArrayLoop rest arrayPath
              (recordElem s arrayPath (getBSONTypeName BVal.regex))) arrayPath).occurrences
          from rfl, hro, hs1occ, hlen]; omega,
        fun t => by rw [show typeCount (getOr (analyzeArrayLoop (BArr.cons BVal.regex rest)
            arrayPath s) arrayPath).types t
            = typeCount (getOr (analyzeArrayLoop rest arrayPath
                (recordElem s arrayPath (getBSONTypeName BVal.regex))) arrayPath).types t
            from rfl, hrt t, hs1tc t, htag t]; omega⟩
    | decimal =>
      obtain ⟨hro, hrt⟩ := analyzeArrayLoop_counts rest arrayPath
        (recordElem s arrayPath (getBSONTypeName BVal.decimal)) hA
      exact ⟨by rw [show (getOr (analyzeArrayLoop (BArr.cons BVal.decimal rest) arrayPath s)
          arrayPath).occurrences
          = (getOr (analyzeArrayLoop rest arrayPath
              (recordElem s arrayPath (getBSONTypeName BVal.decimal))) arrayPath).occurrences
          from rfl, hro, hs1occ, hlen]; omega,
        fun t => by rw [show typeCount (getOr (analyzeArrayLoop (BArr.cons BVal.decimal rest)
            arrayPath s) arrayPath).types t
            = typeCount (getOr (analyzeArrayLoop rest arrayPath
                (recordElem s arrayPath (getBSONTypeName BVal.decimal))) arrayPath).types t
            from rfl, hrt t, hs1tc t, htag t]; omega⟩
    | timestamp =>
      obtain ⟨hro, hrt⟩ := analyzeArrayLoop_counts rest arrayPath
        (recordElem s arrayPath (getBSONTypeName BVal.timestamp)) hA
      exact ⟨by rw [show (getOr (analyzeArrayLoop (BArr.cons BVal.timestamp rest) arrayPath s)
          arrayPath).occurrences
          = (getOr (analyzeArrayLoop rest arrayPath
              (recordElem s arrayPath (getBSONTypeName BVal.timestamp))) arrayPath).occurrences
          from rfl, hro, hs1occ, hlen]; omega,
        fun t => by rw [show typeCount (getOr (analyzeArrayLoop (BArr.cons BVal.timestamp rest)
            arrayPath s) arrayPath).types t
            = typeCount (getOr (analyzeArrayLoop rest arrayPath
                (recordElem s arrayPath (getBSONTypeName BVal.timestamp))) arrayPath).types t
            from rfl, hrt t, hs1tc t, htag t]; omega⟩
termination_by structural items

/-- C7: processing a document whose field `k` holds an array `xs` (over any
prior statistics state, i.e. at any point in a batch) adds exactly one
occurrence of type `array` to the entry for `k` itself, and adds one
occurrence and one type count per array element to the separate entry for
the derived path `k ++ "[]"`; the two keys are distinct, so the two
statistics are tracked independently. -/
theorem c7_array_element_marker (s : Stats) (k : String) (xs : BArr) :
    (k ++ "[]") ≠ k ∧
      (getOr (extractFields (.cons k (.arr xs) .nil) "" s) k).occurrences
          = (getOr s k).occurrences + 1 ∧
      typeCount (getOr (extractFields (.cons k (.arr xs) .nil) "" s) k).types "array"
          = typeCount (getOr s k).types "array" + 1 ∧
      (getOr (extractFields (.cons k (.arr xs) .nil) "" s) (k ++ "[]")).occurrences
          = (getOr s (k ++ "[]")).occurrences + xs.length ∧
      ∀ t, typeCount
            (getOr (extractFields (.cons k (.arr xs) .nil) "" s) (k ++ "[]")).types t
          = typeCount (getOr s (k ++ "[]")).types t + tagCount t xs := by
  have hbr : ("[]" : String).data.length ≠ 0 := by decide
  have hkb_ne : (k ++ "[]") ≠ k := append_ne_self hbr
  have hred : extractFields (.cons k (.arr xs) .nil) "" s
      = analyzeArrayLoop xs (k ++ "[]") (ensureStat (recordType s k "array") (k ++ "[]")) :=
    rfl
  have hunt_k : getOr (analyzeArrayLoop xs (k ++ "[]")
      (ensureStat (recordType s k "array") (k ++ "[]"))) k
        = getOr (ensureStat (recordType s k "array") (k ++ "[]")) k :=
    analyzeArrayLoop_untouched xs (k ++ "[]") _ k (strStarts_self_append_false hbr)
  have hens_k : getOr (ensureStat (recordType s k "array") (k ++ "[]")) k
      = getOr (recordType s k "array") k :=
    getOr_ensureStat_ne _ _ _ hkb_ne
  have hrec_k := getOr_recordType_self s k "array"
  have hens_kb : getOr (ensureStat (recordType s k "array") (k ++ "[]")) (k ++ "[]")
      = getOr (recordType s k "array") (k ++ "[]") :=
    getOr_ensureStat_self _ _
  have hrec_kb : getOr (recordType s k "array") (k ++ "[]") = getOr s (k ++ "[]") :=
    getOr_recordType_ne _ _ _ _ (fun he => hkb_ne he.symm)
  obtain ⟨hco, hct⟩ := analyzeArrayLoop_counts xs (k ++ "[]")
    (ensureStat (recordType s k "array") (k ++ "[]")) (ne_empty_of_append_right hbr)
  refine ⟨hkb_ne, ?_, ?_, ?_, ?_⟩
  · rw [hred, hunt_k, hens_k, hrec_k]
  · rw [hred, hunt_k, hens_k, hrec_k]
    show typeCount (bumpType (getOr s k).types "array") "array" = _
    rw [typeCount_bumpType]
    simp
  · rw [hred, hco, hens_kb, hrec_kb]
  · intro t
    rw [hred, hct t, hens_kb, hrec_kb]

/-- C9: when listing the collections succeeds, the database scan always
produces a result (per-collection failures never become a scan-level
failure); a collection whose document sampling fails is absent from the
result's collection list, while any non-skipped collection whose scan
succeeds appears in it. -/
theorem c9_per_collection_failure_isolated (fuel : Nat) (maxDocs : Int)
    (docSize : BDoc → Int) (dbName : String) (src : DBSourceData)
    (names : List String) (hnames : src.collectionNames = some names) :
    ∃ db : Database, scanDatabase fuel maxDocs docSize dbName src = some db ∧
      (∀ c ∈ names, (src.colls c).sampleDocs = none →
        ∀ col ∈ db.collections, col.name ≠ c) ∧
      (∀ c ∈ names, strStarts c "_" = false →
        ∀ col : Collection,
          scanCollection fuel maxDocs docSize c (src.colls c) = some col →
          col ∈ db.collections) := by
  refine ⟨⟨dbName, src.sizeBytes,
    (names.filter fun n => !(strStarts n "_")).filterMap
      fun n => scanCollection fuel maxDocs docSize n (src.colls n)⟩, ?_, ?_, ?_⟩
  · unfold scanDatabase
    rw [hnames]
  · intro c hc hfail col hcol hname
    rw [List.mem_filterMap] at hcol
    obtain ⟨n, hn, hcoln⟩ := hcol
    have hcn : col.name = n := by
      unfold scanCollection at hcoln
      cases hd : (src.colls n).sampleDocs with
      | none =>
        rw [hd] at hcoln
        exact Option.noConfusion hcoln
      | some docs =>
        rw [hd] at hcoln
        have h2 := Option.some.inj hcoln
        rw [← h2]
    have hnc : n = c := hcn.symm.trans hname
    subst hnc
    unfold scanCollection at hcoln
    rw [hfail] at hcoln
    exact Option.noConfusion hcoln
  · intro c hc hc2 col hcol
    refine List.mem_filterMap.mpr ⟨c, List.mem_filter.mpr ⟨hc, ?_⟩, hcol⟩
    rw [hc2]
    rfl

/-- Witness for C9 on the concrete `c9src` oracle: `broken` (whose sampling
fails) is absent while `alpha` and `zeta` can appear. -/
theorem c9_per_collection_failure_isolated_witness :
    c9src.collectionNames = some ["alpha", "broken", "zeta"] ∧
      (∃ db : Database,
        scanDatabase 1 100 (fun _ => 5) "db" c9src = some db ∧
        (∀ c ∈ ["alpha", "broken", "zeta"], (c9src.colls c).sampleDocs = none →
          ∀ col ∈ db.collections, col.name ≠ c) ∧
        (∀ c ∈ ["alpha", "broken", "zeta"], strStarts c "_" = false →
          ∀ col : Collection,
            scanCollection 1 100 (fun _ => 5) c (c9src.colls c) = some col →
            col ∈ db.collections)) :=
  ⟨rfl, c9_per_collection_failure_isolated 1 100 (fun _ => 5) "db" c9src
    ["alpha", "broken", "zeta"] rfl⟩

end MongoVis
